import Mathlib

/-!
The blue-green deployment lifecycle of goployer.

A shallow embedding of `application/bluegreen.go`, `application/builder.go`
and `pkg/deployer/deploy_manager.go`.

* Go slices are `List`s, Go `error` values are `Option String` (`none` is `nil`).
* The maps `AsgNames` and `PrevAsgs` are total functions from region names;
  a missing key reads as the Go zero value (`""`, the empty slice), which is
  the only way the source reads them.
* The remote services reached through the per-region `AWSClient` are a record
  of answer functions (`AWS`); every function takes the region name of the
  client that `selectClientFromList` picks (`NewBlueGrean` bootstraps one
  client per configured region).
* Every collaborator call a lifecycle function makes is appended, in program
  order, to a trace of `Call`s.
-/

set_option autoImplicit false
set_option linter.dupNamespace false

namespace Goployer

/-! ## Data model (builder.go) -/

structure Config where
  Manifest : String
  Ami : String
  Env : String
  Stack : String
  AssumeRole : String
  Timeout : Int
  StartTimestamp : Int
  Region : String
  Confirm : Bool
deriving DecidableEq, Repr

/-- Go: `Userdata`; the field `Type` is written `Type_`, `Type` being reserved. -/
structure Userdata where
  Type_ : String
  Path : String
deriving DecidableEq, Repr

structure AWSConfig where
  Name : String
  Userdata : Userdata
  Tags : List String
deriving DecidableEq, Repr

structure ScalePolicy where
  Name : String
  AdjustmentType : String
  ScalingAdjustment : Int
  Cooldown : Int
deriving DecidableEq, Repr

structure AlarmConfigs where
  Name : String
  Namespace : String
  Metric : String
  Statistic : String
  Comparison : String
  Threshold : Int
  Period : Int
  EvaluationPeriods : Int
  AlarmActions : List String
deriving DecidableEq, Repr

structure BlockDevice where
  DeviceName : String
  VolumeSize : Int
  VolumeType : String
deriving DecidableEq, Repr

structure LifecycleCallbacks where
  PreTerminatePastClusters : List String
deriving DecidableEq, Repr

structure RegionConfig where
  Region : String
  UsePublicSubnets : Bool
  VPC : String
  SecurityGroups : List String
  HealthcheckLB : String
  HealthcheckTargetGroup : String
  TargetGroups : List String
  LoadBalancers : List String
  AvailabilityZones : List String
deriving DecidableEq, Repr

structure Capacity where
  Min : Int
  Max : Int
  Desired : Int
deriving DecidableEq, Repr

structure Stack where
  Stack : String
  Account : String
  Env : String
  ReplacementType : String
  InstanceType : String
  SshKey : String
  Userdata : Userdata
  IamInstanceProfile : String
  AnsibleTags : String
  AssumeRole : String
  EbsOptimized : Bool
  BlockDevices : List BlockDevice
  ExtraVars : String
  Capacity : Capacity
  Autoscaling : List ScalePolicy
  Alarms : List AlarmConfigs
  LifecycleCallbacks : LifecycleCallbacks
  Regions : List RegionConfig
deriving DecidableEq, Repr

structure Builder where
  Config : Config
  AwsConfig : AWSConfig
  Stacks : List Stack
deriving DecidableEq, Repr

/-- The `UserdataProvider` interface with its two implementations. -/
inductive UserdataProvider where
  | LocalProvider (Path : String)
  | S3Provider (Path : String)
deriving DecidableEq, Repr

/-- Go: `setUserdataProvider` (builder.go). -/
def setUserdataProvider (userdata default_userdata : Userdata) : UserdataProvider :=
  let userdata : Userdata :=
    if userdata.Type_ == "" then { userdata with Type_ := default_userdata.Type_ } else userdata
  let userdata : Userdata :=
    if userdata.Path == "" then { userdata with Path := default_userdata.Path } else userdata
  if userdata.Type_ == "s3" then UserdataProvider.S3Provider userdata.Path
  else UserdataProvider.LocalProvider userdata.Path

/-- Modelled from the spec: `IsStringInArray` is called by `Deploy` and
`CheckValidation` but its body is not among the source files; the spec calls it
a membership check of the string in the list. -/
def IsStringInArray (s : String) (arr : List String) : Bool :=
  arr.any (fun a => a == s)


/-! ## Pre-flight validation (builder.go) -/

/-- Go: the first inner loop of `CheckValidation`; collects the policy names,
or fails on a policy without a name. -/
def collectPolicies : List ScalePolicy → Except String (List String)
  | [] => Except.ok []
  | scaling :: rest =>
    if scaling.Name.length == 0 then
      Except.error "autoscaling policy doesn\x27t have a name."
    else
      match collectPolicies rest with
      | Except.error e => Except.error e
      | Except.ok policies => Except.ok (scaling.Name :: policies)

/-- Go: the loop over `alarm.AlarmActions` in `CheckValidation`. -/
def checkActions (policies : List String) : List String → Option String
  | [] => none
  | action :: rest =>
    if !IsStringInArray action policies then
      some ("no scaling action exists : " ++ action)
    else checkActions policies rest

/-- Go: the loop over `stack.Alarms` in `CheckValidation`. -/
def checkAlarms (policies : List String) : List AlarmConfigs → Option String
  | [] => none
  | alarm :: rest =>
    match checkActions policies alarm.AlarmActions with
    | some e => some e
    | none => checkAlarms policies rest

/-- Go: the loop over `b.Stacks` in `CheckValidation`. -/
def checkStacks : List Stack → Option String
  | [] => none
  | stack :: rest =>
    if stack.Autoscaling.length != 0 && stack.Alarms.length != 0 then
      match collectPolicies stack.Autoscaling with
      | Except.error e => some e
      | Except.ok policies =>
        match checkAlarms policies stack.Alarms with
        | some e => some e
        | none => checkStacks rest
    else checkStacks rest

/-- Go: `Builder.CheckValidation`. -/
def CheckValidation (b : Builder) : Option String := checkStacks b.Stacks

/-! ## The deployer and its collaborators (bluegreen.go) -/

/-- The embedded `Deployer` of `BlueGreen`: the fields the lifecycle reads and
the two region-keyed maps it writes. `AWSClients` holds one client per
configured region (`NewBlueGrean`); the client that `selectClientFromList`
returns for a region is represented by the region name handed to the answers
of `AWS`. The logger is left out. -/
structure Deployer where
  Mode : String
  AwsConfig : AWSConfig
  AsgNames : String → String
  PrevAsgs : String → List String
  Stack : Stack

/-- Go: `NewBlueGrean`; both maps start empty. -/
def NewBlueGrean (mode : String) (awsConfig : AWSConfig) (stack : Stack) : Deployer :=
  { Mode := mode, AwsConfig := awsConfig,
    AsgNames := fun _ => "", PrevAsgs := fun _ => [], Stack := stack }

/-- Go: `BlueGreen.GetStackName`. -/
def GetStackName (b : Deployer) : String := b.Stack.Stack

/-- Helpers and constants used by `Deploy` whose definitions are not among the
source files; they are parameters of the embedding. `EncodeToString` is the
encoding `LocalProvider.provide` applies to the content of the userdata file. -/
structure Helpers where
  buildPrefixName : String → String → String → String
  parseVersion : String → Int
  getCurrentVersion : List Int → Int
  generateAsgName : String → Int → String
  generateLcName : String → String
  EncodeToString : String → String
  DEFAULT_HEALTHCHECK_TYPE : String
  DEFAULT_HEALTHCHECK_GRACE_PERIOD : Int

/-- The part of an autoscaling group description that `Deploy` reads. -/
structure AutoScalingGroup where
  AutoScalingGroupName : String
deriving DecidableEq, Repr

/-- Answers of the local file system (`fileExists`, `ReadFile`), of the remote
services and of the `Deployer` methods that wrap them (`polling`,
`ResizingAutoScalingGroupToZero`, `CheckTerminating`). The first `String`
argument of a field of a remote service is the region name of the selected
client. `ReadFile` answers the content of the file or the error;
`polling` receives the name under which the group was looked up;
`CreateNewLaunchConfiguration` answers from the region, the configuration name
and the image. -/
structure AWS where
  fileExists : String → Bool
  ReadFile : String → Except String String
  GetAllMatchingAutoscalingGroupsWithPrefix : String → String → List AutoScalingGroup
  GetSecurityGroupList : String → String → List String → List String
  MakeBlockDevices : String → List BlockDevice → List BlockDevice
  CreateNewLaunchConfiguration : String → String → String → Bool
  GetAvailabilityZones : String → String → List String → List String
  GetTargetGroupARNs : String → List String → List String
  GenerateTags : String → List String → String → String → String → List String
  GetSubnets : String → String → Bool → List String
  polling : RegionConfig → String → Bool
  CreateScalingPolicy : String → ScalePolicy → String → Except String String
  ResizingAutoScalingGroupToZero : String → String → String → Option String
  CheckTerminating : String → String → Bool

/-- One collaborator call, with the arguments the source passes.
`error_logging` is called by the source but its body is not among the source
files: it is recorded as a call after which control reaches the next statement,
as the source text reads. -/
inductive Call where
  | error_logging (msg : String)
  | GetAllMatchingAutoscalingGroupsWithPrefix (region pfx : String)
  | CreateNewLaunchConfiguration (region name ami instanceType sshKey iamInstanceProfile
      userdata : String) (ebsOptimized : Bool) (securityGroups : List String)
      (blockDevices : List BlockDevice)
  | GetSecurityGroupList (region vpc : String) (securityGroups : List String)
  | MakeBlockDevices (region : String) (blockDevices : List BlockDevice)
  | GetAvailabilityZones (region vpc : String) (availability_zones : List String)
  | GetTargetGroupARNs (region : String) (target_groups : List String)
  | GenerateTags (region : String) (tags : List String) (asg name stack : String)
  | GetSubnets (region vpc : String) (use_public_subnets : Bool)
  | CreateAutoScalingGroup (region name launch_configuration_name healthcheck_type : String)
      (healthcheck_grace_period : Int) (capacity : Capacity) (loadbalancers : List String)
      (target_group_arns termination_policies availability_zones tags subnets : List String)
  | GetMatchingAutoscalingGroup (region name : String)
  | polling (region : RegionConfig) (asg : String)
  | CreateScalingPolicy (region : String) (policy : ScalePolicy) (asg : String)
  | EnableMetrics (region asg : String)
  | CreateScalingAlarms (region asg : String) (alarms : List AlarmConfigs)
      (policyArns policies : List String)
  | ResizingAutoScalingGroupToZero (region stack asg : String)
  | CheckTerminating (region target : String)
deriving DecidableEq, Repr

/-- Go: `LocalProvider.provide` and `S3Provider.provide`; returns the userdata
and the `error_logging` calls made. After a read error the content is empty.
The remote-store provider returns the empty string. -/
def UserdataProvider.provide (h : Helpers) (aws : AWS) :
    UserdataProvider → String × List Call
  | UserdataProvider.LocalProvider path =>
    let noPath :=
      if path == "" then [Call.error_logging "Please specify userdata script path"] else []
    let noFile :=
      if !aws.fileExists path then [Call.error_logging ("File does not exist in " ++ path)]
      else []
    match aws.ReadFile path with
    | Except.error _ =>
      (h.EncodeToString "",
        noPath ++ noFile ++ [Call.error_logging "Error reading userdata file"])
    | Except.ok userdata => (h.EncodeToString userdata, noPath ++ noFile)
  | UserdataProvider.S3Provider _ => ("", [])

/-- Go: the region check at the head of the loops of `Deploy`, `HealthChecking`
and `TerminateChecking`: `config.Region != "" && config.Region != region.Region`. -/
def skippedByUser (config : Config) (region : RegionConfig) : Bool :=
  config.Region != "" && config.Region != region.Region

/-- Go: the body of the loop of `Deploy` for a region that passes the region
check; returns the deployer with both maps written and the calls made.
`makeStringArrayToAwsStrings` changes only the representation of the strings
and is left out. -/
def deployRegion (h : Helpers) (aws : AWS) (b : Deployer) (config : Config)
    (region : RegionConfig) : Deployer × List Call :=
  let friggaPrefix := h.buildPrefixName b.AwsConfig.Name b.Stack.Env region.Region
  let asgGroups := aws.GetAllMatchingAutoscalingGroupsWithPrefix region.Region friggaPrefix
  let prev_asgs := asgGroups.map (fun asgGroup => asgGroup.AutoScalingGroupName)
  let prev_versions := asgGroups.map (fun asgGroup => h.parseVersion asgGroup.AutoScalingGroupName)
  let cur_version := h.getCurrentVersion prev_versions
  let ami := config.Ami
  let new_asg_name := h.generateAsgName friggaPrefix cur_version
  let launch_configuration_name := h.generateLcName new_asg_name
  let provided := (setUserdataProvider b.Stack.Userdata b.AwsConfig.Userdata).provide h aws
  let userdata := provided.1
  let securityGroups := aws.GetSecurityGroupList region.Region region.VPC region.SecurityGroups
  let blockDevices := aws.MakeBlockDevices region.Region b.Stack.BlockDevices
  let ebsOptimized := b.Stack.EbsOptimized
  let ret := aws.CreateNewLaunchConfiguration region.Region launch_configuration_name ami
  let health_elb := region.HealthcheckLB
  let loadbalancers := region.LoadBalancers
  let loadbalancers :=
    if !IsStringInArray health_elb loadbalancers then loadbalancers ++ [health_elb]
    else loadbalancers
  let healthcheck_target_groups := region.HealthcheckTargetGroup
  let target_groups := region.TargetGroups
  let target_groups :=
    if !IsStringInArray healthcheck_target_groups target_groups then
      target_groups ++ [healthcheck_target_groups]
    else target_groups
  let use_public_subnets := region.UsePublicSubnets
  let healthcheck_type := h.DEFAULT_HEALTHCHECK_TYPE
  let healthcheck_grace_period := h.DEFAULT_HEALTHCHECK_GRACE_PERIOD
  let termination_policies : List String := []
  let availability_zones :=
    aws.GetAvailabilityZones region.Region region.VPC region.AvailabilityZones
  let target_group_arns := aws.GetTargetGroupARNs region.Region target_groups
  let tags :=
    aws.GenerateTags region.Region b.AwsConfig.Tags new_asg_name b.AwsConfig.Name config.Stack
  let subnets := aws.GetSubnets region.Region region.VPC use_public_subnets
  ({ b with
      AsgNames := fun k => if k = region.Region then new_asg_name else b.AsgNames k,
      PrevAsgs := fun k => if k = region.Region then prev_asgs else b.PrevAsgs k },
    [Call.GetAllMatchingAutoscalingGroupsWithPrefix region.Region friggaPrefix] ++
    provided.2 ++
    [Call.GetSecurityGroupList region.Region region.VPC region.SecurityGroups,
      Call.MakeBlockDevices region.Region b.Stack.BlockDevices,
      Call.CreateNewLaunchConfiguration region.Region launch_configuration_name ami
        b.Stack.InstanceType b.Stack.SshKey b.Stack.IamInstanceProfile userdata ebsOptimized
        securityGroups blockDevices] ++
    (if !ret then
      [Call.error_logging "Unknown error happened creating new launch configuration."]
     else []) ++
    [Call.GetAvailabilityZones region.Region region.VPC region.AvailabilityZones,
      Call.GetTargetGroupARNs region.Region target_groups,
      Call.GenerateTags region.Region b.AwsConfig.Tags new_asg_name b.AwsConfig.Name config.Stack,
      Call.GetSubnets region.Region region.VPC use_public_subnets,
      Call.CreateAutoScalingGroup region.Region new_asg_name launch_configuration_name
        healthcheck_type healthcheck_grace_period b.Stack.Capacity loadbalancers
        target_group_arns termination_policies availability_zones tags subnets])

/-- Go: the loop of `Deploy` over the regions still to visit. -/
def deployLoop (h : Helpers) (aws : AWS) (config : Config) :
    List RegionConfig → Deployer → Deployer × List Call
  | [], b => (b, [])
  | region :: rest, b =>
    if skippedByUser config region then deployLoop h aws config rest b
    else
      let r := deployRegion h aws b config region
      let r2 := deployLoop h aws config rest r.1
      (r2.1, r.2 ++ r2.2)

/-- Go: `BlueGreen.Deploy`. The receiver is a copy, but its two maps are shared
with the caller, so the writes persist: the deployer with the written maps is
returned together with the calls made. -/
def Deploy (h : Helpers) (aws : AWS) (b : Deployer) (config : Config) :
    Deployer × List Call :=
  deployLoop h aws config b.Stack.Regions b

/-- Go: `validCount` of `HealthChecking` and `TerminateChecking`. -/
def validCount (b : Deployer) (config : Config) : Nat :=
  if config.Region == "" then b.Stack.Regions.length else 1

/-- Go: the loop of `HealthChecking` over the regions still to visit; returns
the regions appended to `finished` and the calls made. -/
def healthLoop (aws : AWS) (b : Deployer) (config : Config) :
    List RegionConfig → List String × List Call
  | [] => ([], [])
  | region :: rest =>
    if skippedByUser config region then healthLoop aws b config rest
    else
      let asg := b.AsgNames region.Region
      let isHealthy := aws.polling region asg
      let r := healthLoop aws b config rest
      ((if isHealthy then [region.Region] else []) ++ r.1,
        Call.GetMatchingAutoscalingGroup region.Region asg :: Call.polling region asg :: r.2)

/-- Go: `BlueGreen.HealthChecking`; the one-entry map is a one-entry
association list. -/
def HealthChecking (aws : AWS) (b : Deployer) (config : Config) :
    List (String × Bool) × List Call :=
  let stack_name := GetStackName b
  let r := healthLoop aws b config b.Stack.Regions
  if r.1.length == validCount b config then ([(stack_name, true)], r.2)
  else ([(stack_name, false)], r.2)

/-- Go: the loop over `b.Stack.Autoscaling` in `FinishAdditionalWork`, for the
region of the selected client and its fleet name; on success returns
`policyArns` and `policies`. -/
def createPolicies (aws : AWS) (region asg : String) :
    List ScalePolicy → Except String (List String × List String) × List Call
  | [] => (Except.ok ([], []), [])
  | policy :: rest =>
    match aws.CreateScalingPolicy region policy asg with
    | Except.error err =>
      (Except.error err, [Call.CreateScalingPolicy region policy asg, Call.error_logging err])
    | Except.ok policyArn =>
      let r := createPolicies aws region asg rest
      (match r.1 with
        | Except.error err => Except.error err
        | Except.ok p => Except.ok (policyArn :: p.1, policy.Name :: p.2),
        Call.CreateScalingPolicy region policy asg :: r.2)

/-- Go: the loop of `FinishAdditionalWork` over the regions still to visit. -/
def finishLoop (aws : AWS) (b : Deployer) : List RegionConfig → Option String × List Call
  | [] => (none, [])
  | region :: rest =>
    let asg := b.AsgNames region.Region
    let r := createPolicies aws region.Region asg b.Stack.Autoscaling
    match r.1 with
    | Except.error err => (some err, r.2)
    | Except.ok p =>
      let r2 := finishLoop aws b rest
      (r2.1, r.2 ++ [Call.EnableMetrics region.Region asg,
          Call.CreateScalingAlarms region.Region asg b.Stack.Alarms p.1 p.2] ++ r2.2)

/-- Go: `BlueGreen.FinishAdditionalWork`. -/
def FinishAdditionalWork (aws : AWS) (b : Deployer) : Option String × List Call :=
  if b.Stack.Autoscaling.length == 0 then (none, [])
  else finishLoop aws b b.Stack.Regions

/-- Go: the loop over `b.PrevAsgs[region.Region]` in `CleanPreviousVersion`. -/
def resizeLoop (aws : AWS) (region stack : String) : List String → Option String × List Call
  | [] => (none, [])
  | asg :: rest =>
    match aws.ResizingAutoScalingGroupToZero region stack asg with
    | some err => (some err, [Call.ResizingAutoScalingGroupToZero region stack asg])
    | none =>
      let r := resizeLoop aws region stack rest
      (r.1, Call.ResizingAutoScalingGroupToZero region stack asg :: r.2)

/-- Go: the loop of `CleanPreviousVersion` over the regions still to visit. -/
def cleanLoop (aws : AWS) (b : Deployer) : List RegionConfig → Option String × List Call
  | [] => (none, [])
  | region :: rest =>
    let r :=
      if (b.PrevAsgs region.Region).length > 0 then
        resizeLoop aws region.Region b.Stack.Stack (b.PrevAsgs region.Region)
      else (none, [])
    match r.1 with
    | some err => (some err, r.2)
    | none =>
      let r2 := cleanLoop aws b rest
      (r2.1, r.2 ++ r2.2)

/-- Go: `BlueGreen.CleanPreviousVersion`. -/
def CleanPreviousVersion (aws : AWS) (b : Deployer) : Option String × List Call :=
  cleanLoop aws b b.Stack.Regions

/-- Go: the loop over `targets` in `TerminateChecking`, started with
`isHealthy := true`; every target is asked. -/
def checkTargets (aws : AWS) (region : String) : List String → Bool → Bool × List Call
  | [], isHealthy => (isHealthy, [])
  | target :: rest, isHealthy =>
    let ok := aws.CheckTerminating region target
    let r := checkTargets aws region rest (if !ok then false else isHealthy)
    (r.1, Call.CheckTerminating region target :: r.2)

/-- Go: the loop of `TerminateChecking` over the regions still to visit; returns
the regions appended to `finished` and the calls made. -/
def terminateLoop (aws : AWS) (b : Deployer) (config : Config) :
    List RegionConfig → List String × List Call
  | [] => ([], [])
  | region :: rest =>
    if skippedByUser config region then terminateLoop aws b config rest
    else
      let targets := b.PrevAsgs region.Region
      if targets.length == 0 then terminateLoop aws b config rest
      else
        let c := checkTargets aws region.Region targets true
        let r := terminateLoop aws b config rest
        ((if c.1 then [region.Region] else []) ++ r.1, c.2 ++ r.2)

/-- Go: `BlueGreen.TerminateChecking`. -/
def TerminateChecking (aws : AWS) (b : Deployer) (config : Config) :
    List (String × Bool) × List Call :=
  let stack_name := GetStackName b
  let r := terminateLoop aws b config b.Stack.Regions
  if r.1.length == validCount b config then ([(stack_name, true)], r.2)
  else ([(stack_name, false)], r.2)

/-! ## Lifecycle call sequences (deploy_manager.go) -/

/-- Go: the operations of the `DeployManager` interface that `BlueGreen`
implements in the source files, as invoked by a driver. -/
inductive LifecycleCall where
  | Deploy (config : Config)
  | HealthChecking (config : Config)
  | FinishAdditionalWork
  | CleanPreviousVersion
  | TerminateChecking (config : Config)
deriving DecidableEq, Repr

/-- One entry of the log of a lifecycle run: an operation is invoked, a
collaborator call is made, or `HealthChecking` returns (`ok` tells whether the
returned map is `{stack name -> true}`, `snapshot` lists the regions polled in
that call with the answer of each poll). -/
inductive Entry where
  | invoked (c : LifecycleCall)
  | call (c : Call)
  | healthReturned (ok : Bool) (snapshot : List (String × Bool))
deriving DecidableEq, Repr

/-- The region polled by a `polling` call and the answer it gets. -/
def Call.pollAnswer (aws : AWS) : Call → Option (String × Bool)
  | Call.polling region asg => some (region.Region, aws.polling region asg)
  | _ => none

/-- The regions polled in a trace, each with the answer of its poll. -/
def healthSnapshot (aws : AWS) (calls : List Call) : List (String × Bool) :=
  calls.filterMap (Call.pollAnswer aws)

/-- One lifecycle operation on the deployer, against the answers the remote
services give during that operation. -/
def lifecycleStep (h : Helpers) (aws : AWS) (b : Deployer) :
    LifecycleCall → Deployer × List Entry
  | LifecycleCall.Deploy config =>
    let r := Deploy h aws b config
    (r.1, r.2.map Entry.call)
  | LifecycleCall.HealthChecking config =>
    let r := HealthChecking aws b config
    (b, r.2.map Entry.call ++
      [Entry.healthReturned (decide (r.1 = [(GetStackName b, true)])) (healthSnapshot aws r.2)])
  | LifecycleCall.FinishAdditionalWork =>
    (b, (FinishAdditionalWork aws b).2.map Entry.call)
  | LifecycleCall.CleanPreviousVersion =>
    (b, (CleanPreviousVersion aws b).2.map Entry.call)
  | LifecycleCall.TerminateChecking config =>
    (b, (TerminateChecking aws b config).2.map Entry.call)

/-- The log of a sequence of lifecycle operations; each operation comes with
the answers of the remote services at that time. -/
def runLifecycle (h : Helpers) : Deployer → List (AWS × LifecycleCall) → List Entry
  | _, [] => []
  | b, step :: rest =>
    let r := lifecycleStep h step.1 b step.2
    Entry.invoked step.2 :: (r.2 ++ runLifecycle h r.1 rest)

/-- Whether the call is a resize of a fleet to zero. -/
def Call.isResize : Call → Bool
  | Call.ResizingAutoScalingGroupToZero _ _ _ => true
  | _ => false

/-- Whether the entry is a resize of a fleet to zero. -/
def Entry.isResize : Entry → Bool
  | Entry.call c => c.isResize
  | _ => false

/-- Whether the entry is a return of `HealthChecking`. -/
def Entry.isHealthReturn : Entry → Bool
  | Entry.healthReturned _ _ => true
  | _ => false

/-- The entries of a log that are returns of `HealthChecking` or resizes. -/
def decisive (log : List Entry) : List Entry :=
  log.filter (fun e => e.isHealthReturn || e.isResize)

/-- Whether the entry is an invocation of `CleanPreviousVersion`. -/
def Entry.isCleanInvocation : Entry → Bool
  | Entry.invoked LifecycleCall.CleanPreviousVersion => true
  | _ => false

/-- Scan of a log: `healthy` tells whether a `HealthChecking` call of the
current release (since the last `Deploy`) has returned true; the scan fails at
an entry satisfying `guarded` met while `healthy` is false. -/
def gatedFrom (guarded : Entry → Bool) : Bool → List Entry → Bool
  | _, [] => true
  | _, Entry.invoked (LifecycleCall.Deploy _) :: rest => gatedFrom guarded false rest
  | _, Entry.healthReturned true _ :: rest => gatedFrom guarded true rest
  | healthy, e :: rest => (healthy || !guarded e) && gatedFrom guarded healthy rest

/-- No fleet is resized before a `HealthChecking` call of the release returned
true. -/
def resizeGated (log : List Entry) : Bool := gatedFrom Entry.isResize false log

/-- The driver invokes `CleanPreviousVersion` only after a `HealthChecking`
call of the release returned true. -/
def cleanGated (log : List Entry) : Bool := gatedFrom Entry.isCleanInvocation false log

/-- Whether the operation is made with `config`; `FinishAdditionalWork` and
`CleanPreviousVersion` take no `Config`. -/
def LifecycleCall.madeWith (config : Config) : LifecycleCall → Bool
  | LifecycleCall.Deploy c => decide (c = config)
  | LifecycleCall.HealthChecking c => decide (c = config)
  | LifecycleCall.TerminateChecking c => decide (c = config)
  | _ => true

/-- The names of the regions under consideration: the configured regions that
pass the region check of `config`, in configured order. -/
def consideredRegions (b : Deployer) (config : Config) : List String :=
  (b.Stack.Regions.filter (fun region => !skippedByUser config region)).map
    (fun region => region.Region)

/-- Scan of a log: `converged` tells whether a `HealthChecking` call of the
current release (since the last `Deploy`) has returned true with every region
of `considered` polled healthy in that call; the scan fails at a resize met
while `converged` is false, and at a resize of a fleet of a region that is not
in `considered`. -/
def untouchedFrom (considered : List String) : Bool → List Entry → Bool
  | _, [] => true
  | _, Entry.invoked (LifecycleCall.Deploy _) :: rest => untouchedFrom considered false rest
  | converged, Entry.healthReturned ok snapshot :: rest =>
    untouchedFrom considered
      (converged || (ok && decide (snapshot = considered.map (fun name => (name, true))))) rest
  | converged, Entry.call (Call.ResizingAutoScalingGroupToZero region _ _) :: rest =>
    (converged && decide (region ∈ considered)) && untouchedFrom considered converged rest
  | converged, _ :: rest => untouchedFrom considered converged rest

/-- While a region under consideration is still converging, no previous fleet
is resized; the fleets of a region outside `considered` are never resized. -/
def untouchedWhileConverging (considered : List String) (log : List Entry) : Bool :=
  untouchedFrom considered false log

/-! ## Projections of the trace -/

/-- The list handed to `GetTargetGroupARNs`, with the region of the client. -/
def Call.targetGroupsHanded : Call → Option (String × List String)
  | Call.GetTargetGroupARNs region target_groups => some (region, target_groups)
  | _ => none

/-- The load-balancer list handed to `CreateAutoScalingGroup`, with the region
of the client. -/
def Call.loadBalancersHanded : Call → Option (String × List String)
  | Call.CreateAutoScalingGroup region _ _ _ _ _ loadbalancers _ _ _ _ _ =>
    some (region, loadbalancers)
  | _ => none

/-- The region of a provisioning call (launch configuration or scaling group
creation). -/
def Call.provisionedRegion : Call → Option String
  | Call.CreateNewLaunchConfiguration region _ _ _ _ _ _ _ _ _ => some region
  | Call.CreateAutoScalingGroup region _ _ _ _ _ _ _ _ _ _ _ => some region
  | _ => none

/-- The region of a finalizing call (`CreateScalingPolicy`, `EnableMetrics`,
`CreateScalingAlarms`) together with the fleet name it is made for. -/
def Call.finalizedFleet : Call → Option (String × String)
  | Call.CreateScalingPolicy region _ asg => some (region, asg)
  | Call.EnableMetrics region asg => some (region, asg)
  | Call.CreateScalingAlarms region asg _ _ _ => some (region, asg)
  | _ => none

/-- The error, if any, that the remote service answers to a
`CreateScalingPolicy` call of the trace. -/
def Call.scalingPolicyError (aws : AWS) : Call → Option String
  | Call.CreateScalingPolicy region policy asg =>
    match aws.CreateScalingPolicy region policy asg with
    | Except.error err => some err
    | Except.ok _ => none
  | _ => none

/-- The error, if any, answered to a resize call of the trace. -/
def Call.resizeError (aws : AWS) : Call → Option String
  | Call.ResizingAutoScalingGroupToZero region stack asg =>
    aws.ResizingAutoScalingGroupToZero region stack asg
  | _ => none

/-- The outcome of issuing `calls` in order up to the first one that is
answered with an error: that error, and the calls issued. -/
def runUntilError (answer : Call → Option String) : List Call → Option String × List Call
  | [] => (none, [])
  | c :: rest =>
    match answer c with
    | some err => (some err, [c])
    | none => ((runUntilError answer rest).1, c :: (runUntilError answer rest).2)

/-- The resize calls for every fleet recorded in `PrevAsgs`, region by region in
configured order. -/
def allPreviousFleets (b : Deployer) : List Call :=
  b.Stack.Regions.flatMap (fun region =>
    (b.PrevAsgs region.Region).map (fun asg =>
      Call.ResizingAutoScalingGroupToZero region.Region b.Stack.Stack asg))

/-! ## Sample inputs -/

def sampleRegion (name : String) : RegionConfig :=
  { Region := name, UsePublicSubnets := false, VPC := "vpc", SecurityGroups := ["sg"],
    HealthcheckLB := "lb", HealthcheckTargetGroup := "tg", TargetGroups := ["tg", "web"],
    LoadBalancers := [], AvailabilityZones := ["a"] }

def samplePolicy : ScalePolicy :=
  { Name := "scale_up", AdjustmentType := "ChangeInCapacity", ScalingAdjustment := 1,
    Cooldown := 60 }

def sampleAlarm : AlarmConfigs :=
  { Name := "cpu_high", Namespace := "AWS/EC2", Metric := "CPUUtilization",
    Statistic := "Average", Comparison := "GreaterThanOrEqualToThreshold", Threshold := 70,
    Period := 60, EvaluationPeriods := 2, AlarmActions := ["scale_up"] }

def sampleStack : Stack :=
  { Stack := "demo", Account := "dev", Env := "dev", ReplacementType := "BlueGreen",
    InstanceType := "t3.small", SshKey := "key", Userdata := { Type_ := "", Path := "" },
    IamInstanceProfile := "app", AnsibleTags := "all", AssumeRole := "", EbsOptimized := false,
    BlockDevices := [], ExtraVars := "", Capacity := { Min := 1, Max := 2, Desired := 1 },
    Autoscaling := [samplePolicy], Alarms := [sampleAlarm],
    LifecycleCallbacks := { PreTerminatePastClusters := [] },
    Regions := [sampleRegion "A", sampleRegion "B"] }

def sampleAwsConfig : AWSConfig :=
  { Name := "demo", Userdata := { Type_ := "local", Path := "userdata.sh" }, Tags := [] }

def sampleConfig (region : String) : Config :=
  { Manifest := "manifest.yaml", Ami := "ami-1", Env := "dev", Stack := "demo",
    AssumeRole := "", Timeout := 60, StartTimestamp := 0, Region := region, Confirm := true }

/-- A version resolver in the manner of the spec: the version is read from the
last three characters of a name, the next version is one more than the largest
(1 when there is none), written with three digits. -/
def sampleHelpers : Helpers :=
  { buildPrefixName := fun name _ _ => name,
    parseVersion := fun name =>
      Int.ofNat ((name.data.reverse.take 3).reverse.foldl
        (fun acc c => acc * 10 + (c.toNat - 48)) 0),
    getCurrentVersion := fun versions => versions.foldl (fun m v => max m v) 0 + 1,
    generateAsgName := fun pfx version =>
      pfx ++ "-v" ++ String.mk
        [Char.ofNat (48 + version.toNat / 100 % 10), Char.ofNat (48 + version.toNat / 10 % 10),
          Char.ofNat (48 + version.toNat % 10)],
    generateLcName := fun name => name ++ "-lc",
    EncodeToString := fun content => content,
    DEFAULT_HEALTHCHECK_TYPE := "ELB",
    DEFAULT_HEALTHCHECK_GRACE_PERIOD := 300 }

/-- Sample answers: the userdata file `userdata.sh` exists; region `A` holds the
fleet `demo-v001`, region `B` none;
the fleets named in `healthy` poll healthy; every mutating call succeeds and
every previous fleet is reported terminated. -/
def sampleAWS (healthy : List String) : AWS :=
  { fileExists := fun path => path == "userdata.sh",
    ReadFile := fun path =>
      if path = "userdata.sh" then Except.ok "echo" else Except.error "no such file",
    GetAllMatchingAutoscalingGroupsWithPrefix := fun region _ =>
      if region = "A" then [{ AutoScalingGroupName := "demo-v001" }] else [],
    GetSecurityGroupList := fun _ _ securityGroups => securityGroups,
    MakeBlockDevices := fun _ blockDevices => blockDevices,
    CreateNewLaunchConfiguration := fun _ _ _ => true,
    GetAvailabilityZones := fun _ _ zones => zones,
    GetTargetGroupARNs := fun _ target_groups => target_groups,
    GenerateTags := fun _ tags _ _ _ => tags,
    GetSubnets := fun _ _ _ => [],
    polling := fun region _ => IsStringInArray region.Region healthy,
    CreateScalingPolicy := fun _ policy _ => Except.ok policy.Name,
    ResizingAutoScalingGroupToZero := fun _ _ _ => none,
    CheckTerminating := fun _ _ => true }

/-- Sample answers with failures: `CreateScalingPolicy` is refused in region
`B`, and the resize of `demo-v001` is refused. -/
def failingAWS : AWS :=
  { sampleAWS ["A", "B"] with
    CreateScalingPolicy := fun region policy _ =>
      if region = "B" then Except.error "AccessDenied" else Except.ok policy.Name,
    ResizingAutoScalingGroupToZero := fun _ _ asg =>
      if asg = "demo-v001" then some "AccessDenied" else none }

/-- Sample answers for which region `B` holds a fleet too, `demo-v007`. -/
def twoFleetsAWS (healthy : List String) : AWS :=
  { sampleAWS healthy with
    GetAllMatchingAutoscalingGroupsWithPrefix := fun region _ =>
      if region = "A" then [{ AutoScalingGroupName := "demo-v001" }]
      else [{ AutoScalingGroupName := "demo-v007" }] }

/-- A stack with two configured regions of the same name `A`, in different
networks. -/
def twinStack : Stack :=
  { sampleStack with
    Regions := [sampleRegion "A", { sampleRegion "A" with VPC := "vpc-2" }] }

/-- Sample answers for the twin stack: only the region in the network `vpc`
polls healthy. -/
def twinAWS : AWS :=
  { sampleAWS [] with polling := fun region _ => region.VPC == "vpc" }

/-- A freshly constructed deployer for the sample stack. -/
def sampleDeployer : Deployer := NewBlueGrean "bluegreen" sampleAwsConfig sampleStack

/-- The sample deployer after `Deploy` without a region filter: the previous
fleet `demo-v001` is recorded for region `A`, none for region `B`. -/
def deployedSample : Deployer :=
  (Deploy sampleHelpers (sampleAWS ["A", "B"]) sampleDeployer (sampleConfig "")).1

/-- The sample stack without scaling policies; its alarm still names the action
`scale_up`. -/
def noPolicyStack : Stack := { sampleStack with Autoscaling := [] }

def noPolicyBuilder : Builder :=
  { Config := sampleConfig "", AwsConfig := sampleAwsConfig, Stacks := [noPolicyStack] }

/-- The sample stack with an alarm naming the action `scale_down`, which is not
the name of its only policy `scale_up`. -/
def unknownActionBuilder : Builder :=
  { Config := sampleConfig "", AwsConfig := sampleAwsConfig,
    Stacks := [{ sampleStack with
      Alarms := [{ sampleAlarm with AlarmActions := ["scale_up", "scale_down"] }] }] }

end Goployer

namespace Goployer

/-! ## Health convergence -/

/-- The regions `HealthChecking` appends to `finished`: those that pass the
region check and whose poll reports healthy, in configured order. -/
theorem healthLoop_finished (aws : AWS) (b : Deployer) (config : Config)
    (rs : List RegionConfig) :
    (healthLoop aws b config rs).1 =
      (rs.filter (fun r => !skippedByUser config r && aws.polling r (b.AsgNames r.Region))).map
        (fun r => r.Region) := by
  induction rs with
  | nil => rfl
  | cons r rest ih =>
    by_cases hs : skippedByUser config r = true
    · simp [healthLoop, hs, ih]
    · by_cases hp : aws.polling r (b.AsgNames r.Region) = true
      · simp [healthLoop, hs, hp, ih]
      · simp [healthLoop, hs, hp, ih]

theorem skippedByUser_of_empty (config : Config) (region : RegionConfig)
    (h : config.Region = "") : skippedByUser config region = false := by
  simp [skippedByUser, h]

theorem skippedByUser_of_filter (config : Config) (region : RegionConfig)
    (h : config.Region ≠ "") :
    skippedByUser config region = false ↔ region.Region = config.Region := by
  simp only [skippedByUser, bne_iff_ne, ne_eq, Bool.and_eq_false_imp, Bool.and_eq_true,
    decide_eq_true_eq, bne_eq_false_iff_eq]
  constructor
  · intro hi
    exact (hi h).symm
  · intro he _
    exact he.symm

theorem filter_length_eq_iff {α : Type} (p : α → Bool) (l : List α) :
    (l.filter p).length = l.length ↔ ∀ a ∈ l, p a = true := by
  induction l with
  | nil => simp
  | cons a l ih =>
    by_cases ha : p a = true
    · simp [ha, ih]
    · have hle := List.length_filter_le p l
      simp [ha]
      omega

theorem length_le_one_of_nodup_const {α : Type} (r : α) :
    ∀ l : List α, l.Nodup → (∀ x ∈ l, x = r) → l.length ≤ 1
  | [], _, _ => by simp
  | [_], _, _ => by simp
  | a :: c :: _, hnd, hall => by
    have ha : a = r := hall a (by simp)
    have hc : c = r := hall c (by simp)
    subst ha
    subst hc
    simp at hnd

theorem HealthChecking_result (aws : AWS) (b : Deployer) (config : Config) :
    (HealthChecking aws b config).1 =
      [(GetStackName b,
        decide ((healthLoop aws b config b.Stack.Regions).1.length = validCount b config))] := by
  by_cases h : (healthLoop aws b config b.Stack.Regions).1.length = validCount b config
  · simp [HealthChecking, h]
  · simp [HealthChecking, h]

/-- Claim C1. With an empty region filter, `HealthChecking` returns
`{stack name -> true}` exactly when the poll reports healthy for every region
of `Stack.Regions`; one unhealthy region makes it return `{stack name -> false}`. -/
theorem HealthChecking_no_filter (aws : AWS) (b : Deployer) (config : Config)
    (hfilter : config.Region = "") :
    ((HealthChecking aws b config).1 = [(GetStackName b, true)] ↔
        ∀ region ∈ b.Stack.Regions, aws.polling region (b.AsgNames region.Region) = true) ∧
    ((∃ region ∈ b.Stack.Regions, aws.polling region (b.AsgNames region.Region) = false) →
        (HealthChecking aws b config).1 = [(GetStackName b, false)]) := by
  have hlen : (healthLoop aws b config b.Stack.Regions).1.length = validCount b config ↔
      ∀ region ∈ b.Stack.Regions, aws.polling region (b.AsgNames region.Region) = true := by
    rw [healthLoop_finished, List.length_map]
    simp only [validCount, hfilter, beq_self_eq_true, if_true]
    rw [filter_length_eq_iff]
    constructor
    · intro h r hr
      have := h r hr
      simpa [skippedByUser_of_empty config r hfilter] using this
    · intro h r hr
      simp [skippedByUser_of_empty config r hfilter, h r hr]
  rw [HealthChecking_result]
  constructor
  · simp [hlen]
  · rintro ⟨r, hr, hfalse⟩
    have hall : ¬ (healthLoop aws b config b.Stack.Regions).1.length = validCount b config := by
      intro h
      have := hlen.mp h r hr
      simp [hfalse] at this
    simp [hall]

/-- Instance of C1 on the sample stack: both regions poll healthy. -/
theorem HealthChecking_no_filter_witness :
    (sampleConfig "").Region = "" ∧
    (((HealthChecking (sampleAWS ["A", "B"]) sampleDeployer (sampleConfig "")).1 =
          [(GetStackName sampleDeployer, true)] ↔
        ∀ region ∈ sampleDeployer.Stack.Regions,
          (sampleAWS ["A", "B"]).polling region (sampleDeployer.AsgNames region.Region) = true) ∧
      ((∃ region ∈ sampleDeployer.Stack.Regions,
          (sampleAWS ["A", "B"]).polling region (sampleDeployer.AsgNames region.Region) = false) →
        (HealthChecking (sampleAWS ["A", "B"]) sampleDeployer (sampleConfig "")).1 =
          [(GetStackName sampleDeployer, false)])) :=
  ⟨rfl, HealthChecking_no_filter (sampleAWS ["A", "B"]) sampleDeployer (sampleConfig "") rfl⟩

/-- Claim C2. With a non-empty region filter `r` and pairwise distinct region
names, `HealthChecking` returns `{stack name -> true}` exactly when `r` is a
configured region whose poll reports healthy; the result is the same for any
other answers that agree on the regions named `r`, and it is
`{stack name -> false}` when no configured region is named `r`. -/
theorem HealthChecking_region_filter (aws : AWS) (b : Deployer) (config : Config)
    (hdistinct : (b.Stack.Regions.map (fun region => region.Region)).Nodup)
    (hfilter : config.Region ≠ "") :
    ((HealthChecking aws b config).1 = [(GetStackName b, true)] ↔
        ∃ region ∈ b.Stack.Regions, region.Region = config.Region ∧
          aws.polling region (b.AsgNames region.Region) = true) ∧
    (∀ other : AWS,
        (∀ region ∈ b.Stack.Regions, region.Region = config.Region →
          other.polling region (b.AsgNames region.Region) =
            aws.polling region (b.AsgNames region.Region)) →
        (HealthChecking other b config).1 = (HealthChecking aws b config).1) ∧
    ((∀ region ∈ b.Stack.Regions, region.Region ≠ config.Region) →
        ∀ other : AWS, (HealthChecking other b config).1 = [(GetStackName b, false)]) := by
  have hvalid : validCount b config = 1 := by simp [validCount, hfilter]
  have hle : ∀ a : AWS, (healthLoop a b config b.Stack.Regions).1.length ≤ 1 := by
    intro a
    rw [healthLoop_finished]
    apply length_le_one_of_nodup_const config.Region
    · exact (List.Nodup.sublist (List.Sublist.map _ (List.filter_sublist _)) hdistinct)
    · intro x hx
      simp only [List.mem_map, List.mem_filter] at hx
      obtain ⟨region, ⟨_, hp⟩, rfl⟩ := hx
      simp only [Bool.and_eq_true, Bool.not_eq_true'] at hp
      exact (skippedByUser_of_filter config region hfilter).mp hp.1
  have hone : ∀ a : AWS, (healthLoop a b config b.Stack.Regions).1.length = 1 ↔
      ∃ region ∈ b.Stack.Regions, region.Region = config.Region ∧
        a.polling region (b.AsgNames region.Region) = true := by
    intro a
    constructor
    · intro h
      have hpos : 0 < (healthLoop a b config b.Stack.Regions).1.length := by omega
      rw [healthLoop_finished, List.length_map] at hpos
      obtain ⟨region, hmem⟩ := List.exists_mem_of_length_pos hpos
      simp only [List.mem_filter, Bool.and_eq_true, Bool.not_eq_true'] at hmem
      exact ⟨region, hmem.1, (skippedByUser_of_filter config region hfilter).mp hmem.2.1,
        hmem.2.2⟩
    · rintro ⟨region, hmem, hname, hp⟩
      have hin : region.Region ∈ (healthLoop a b config b.Stack.Regions).1 := by
        rw [healthLoop_finished]
        simp only [List.mem_map, List.mem_filter, Bool.and_eq_true, Bool.not_eq_true']
        exact ⟨region, ⟨hmem, (skippedByUser_of_filter config region hfilter).mpr hname, hp⟩,
          rfl⟩
      have hpos := List.length_pos_of_mem hin
      have := hle a
      omega
  refine ⟨?_, ?_, ?_⟩
  · rw [HealthChecking_result, hvalid]
    simp [hone aws]
  · intro other hagree
    rw [HealthChecking_result, HealthChecking_result, hvalid]
    have : ((healthLoop other b config b.Stack.Regions).1.length = 1) ↔
        ((healthLoop aws b config b.Stack.Regions).1.length = 1) := by
      rw [hone other, hone aws]
      constructor
      · rintro ⟨region, hmem, hname, hp⟩
        exact ⟨region, hmem, hname, by rw [← hagree region hmem hname]; exact hp⟩
      · rintro ⟨region, hmem, hname, hp⟩
        exact ⟨region, hmem, hname, by rw [hagree region hmem hname]; exact hp⟩
    simp [this]
  · intro hnone other
    rw [HealthChecking_result, hvalid]
    have : ¬ (healthLoop other b config b.Stack.Regions).1.length = 1 := by
      rw [hone other]
      rintro ⟨region, hmem, hname, _⟩
      exact hnone region hmem hname
    simp [this]

/-- Instance of C2 on the sample stack: the filter selects region `A`, which
polls healthy while region `B` does not. -/
theorem HealthChecking_region_filter_witness :
    (sampleDeployer.Stack.Regions.map (fun region => region.Region)).Nodup ∧
    (sampleConfig "A").Region ≠ "" ∧
    (HealthChecking (sampleAWS ["A"]) sampleDeployer (sampleConfig "A")).1 =
      [(GetStackName sampleDeployer, true)] :=
  ⟨by decide, by decide,
    (HealthChecking_region_filter (sampleAWS ["A"]) sampleDeployer (sampleConfig "A")
      (by decide) (by decide)).1.mpr ⟨sampleRegion "A", by decide, rfl, by decide⟩⟩

/-! ## Termination convergence -/

/-- Claim C3. Regions `[A, B]`, `PrevAsgs[A] = [demo-v001]` reported terminated and
`PrevAsgs[B]` empty, no region filter: `TerminateChecking` asks about
`demo-v001` only and returns `{demo -> false}`, because region `B` is skipped
without being appended to `finished` while `validCount` counts it. -/
theorem TerminateChecking_region_without_previous_fleets :
    deployedSample.Stack.Regions.map (fun region => region.Region) = ["A", "B"] ∧
    deployedSample.PrevAsgs "A" = ["demo-v001"] ∧
    deployedSample.PrevAsgs "B" = [] ∧
    (sampleAWS []).CheckTerminating "A" "demo-v001" = true ∧
    TerminateChecking (sampleAWS []) deployedSample (sampleConfig "") =
      ([("demo", false)], [Call.CheckTerminating "A" "demo-v001"]) := by
  decide

/-! ## Pre-flight validation -/

theorem IsStringInArray_iff (s : String) (arr : List String) :
    IsStringInArray s arr = true ↔ s ∈ arr := by
  unfold IsStringInArray
  rw [List.any_eq_true]
  constructor
  · rintro ⟨a, ha, he⟩
    rw [beq_iff_eq] at he
    exact he ▸ ha
  · intro h
    exact ⟨s, h, by simp⟩

theorem collectPolicies_ok :
    ∀ (l : List ScalePolicy) (policies : List String),
      collectPolicies l = Except.ok policies → policies = l.map (fun p => p.Name)
  | [], policies, h => by
    simp [collectPolicies] at h
    simp [h]
  | p :: rest, policies, h => by
    unfold collectPolicies at h
    split at h
    · simp at h
    · cases hrest : collectPolicies rest with
      | error e => simp [hrest] at h
      | ok ps =>
        simp [hrest] at h
        have := collectPolicies_ok rest ps hrest
        simp [← h, this]

theorem checkActions_none (policies : List String) :
    ∀ actions : List String, checkActions policies actions = none →
      ∀ action ∈ actions, action ∈ policies
  | [], _, action, hmem => by simp at hmem
  | a :: rest, h, action, hmem => by
    unfold checkActions at h
    split at h
    · simp at h
    · rename_i hin
      simp only [Bool.not_eq_true', Bool.not_eq_false] at hin
      rcases List.mem_cons.mp hmem with rfl | hrest
      · exact (IsStringInArray_iff _ _).mp hin
      · exact checkActions_none policies rest h action hrest

theorem checkAlarms_none (policies : List String) :
    ∀ alarms : List AlarmConfigs, checkAlarms policies alarms = none →
      ∀ alarm ∈ alarms, ∀ action ∈ alarm.AlarmActions, action ∈ policies
  | [], _, alarm, hmem => by simp at hmem
  | a :: rest, h, alarm, hmem => by
    unfold checkAlarms at h
    cases hact : checkActions policies a.AlarmActions with
    | some e => simp [hact] at h
    | none =>
      simp only [hact] at h
      rcases List.mem_cons.mp hmem with rfl | hrest
      · exact checkActions_none policies _ hact
      · exact checkAlarms_none policies rest h alarm hrest

theorem checkStacks_none :
    ∀ l : List Stack, checkStacks l = none →
      ∀ stack ∈ l, stack.Autoscaling ≠ [] →
        ∀ alarm ∈ stack.Alarms, ∀ action ∈ alarm.AlarmActions,
          ∃ policy ∈ stack.Autoscaling, policy.Name = action
  | [], _, stack, hmem => by simp at hmem
  | s :: rest, h, stack, hmem => by
    intro hpol alarm halarm action haction
    rcases List.mem_cons.mp hmem with rfl | hrest
    · have hcond : (stack.Autoscaling.length != 0 && stack.Alarms.length != 0) = true := by
        have h1 : stack.Autoscaling.length ≠ 0 := by
          simpa [List.length_eq_zero] using hpol
        have h2 : stack.Alarms.length ≠ 0 := by
          have := List.length_pos_of_mem halarm
          omega
        simp [h1, h2]
      unfold checkStacks at h
      rw [if_pos hcond] at h
      cases hcol : collectPolicies stack.Autoscaling with
      | error e => simp [hcol] at h
      | ok policies =>
        simp only [hcol] at h
        cases hal : checkAlarms policies stack.Alarms with
        | some e => simp [hal] at h
        | none =>
          have hin := checkAlarms_none policies _ hal alarm halarm action haction
          rw [collectPolicies_ok _ _ hcol] at hin
          simpa using hin
    · have hrec : checkStacks rest = none := by
        unfold checkStacks at h
        split at h
        · cases hcol : collectPolicies s.Autoscaling with
          | error e => simp [hcol] at h
          | ok policies =>
            simp only [hcol] at h
            cases hal : checkAlarms policies s.Alarms with
            | some e => simp [hal] at h
            | none => simpa [hal] using h
        · exact h
      exact checkStacks_none rest hrec stack hrest hpol alarm halarm action haction

/-- Claim C4, as stated, fails. A stack with an empty `Autoscaling` list and an
alarm whose action `scale_up` names no policy of that stack passes
`CheckValidation`: the check is made only when both lists are non-empty. -/
theorem CheckValidation_no_policies_counterexample :
    (∃ stack ∈ noPolicyBuilder.Stacks, ∃ alarm ∈ stack.Alarms,
      ∃ action ∈ alarm.AlarmActions, ∀ policy ∈ stack.Autoscaling, policy.Name ≠ action) ∧
    CheckValidation noPolicyBuilder = none :=
  ⟨⟨noPolicyStack, by decide, sampleAlarm, by decide, "scale_up", by decide, by decide⟩,
    by decide⟩

/-- Claim C4, amended. If some stack with a non-empty `Autoscaling` list has an
alarm one of whose `AlarmActions` is not the `Name` of any scaling policy of
that stack, then `CheckValidation` returns a non-nil error. -/
theorem CheckValidation_unknown_action (b : Builder) (stack : Stack)
    (hstack : stack ∈ b.Stacks) (hpolicies : stack.Autoscaling ≠ [])
    (alarm : AlarmConfigs) (halarm : alarm ∈ stack.Alarms)
    (action : String) (haction : action ∈ alarm.AlarmActions)
    (hunknown : ∀ policy ∈ stack.Autoscaling, policy.Name ≠ action) :
    CheckValidation b ≠ none := by
  intro hnone
  obtain ⟨policy, hmem, hname⟩ :=
    checkStacks_none b.Stacks hnone stack hstack hpolicies alarm halarm action haction
  exact hunknown policy hmem hname

/-- Instance of the amended C4: the alarm of the stack names `scale_down`, the
only policy is `scale_up`, and validation fails with the message for that
action. -/
theorem CheckValidation_unknown_action_witness :
    CheckValidation unknownActionBuilder = some "no scaling action exists : scale_down" ∧
    CheckValidation unknownActionBuilder ≠ none :=
  ⟨by decide,
    CheckValidation_unknown_action unknownActionBuilder
      { sampleStack with
        Alarms := [{ sampleAlarm with AlarmActions := ["scale_up", "scale_down"] }] }
      (by decide) (by decide)
      { sampleAlarm with AlarmActions := ["scale_up", "scale_down"] } (by decide)
      "scale_down" (by decide) (by decide)⟩


/-! ## Provisioning -/

/-- The userdata provider makes no call but `error_logging`. -/
theorem provide_logs_only (h : Helpers) (aws : AWS) (p : UserdataProvider) :
    ∀ c ∈ (p.provide h aws).2, ∃ msg, c = Call.error_logging msg := by
  intro c hc
  cases p with
  | S3Provider path => simp [UserdataProvider.provide] at hc
  | LocalProvider path =>
    unfold UserdataProvider.provide at hc
    cases hread : aws.ReadFile path with
    | error e =>
      simp only [hread, List.mem_append, List.mem_ite_nil_right, List.mem_singleton] at hc
      rcases hc with (hc | hc) | hc
      · exact ⟨_, hc.2⟩
      · exact ⟨_, hc.2⟩
      · exact ⟨_, hc⟩
    | ok content =>
      simp only [hread, List.mem_append, List.mem_ite_nil_right, List.mem_singleton] at hc
      rcases hc with hc | hc
      · exact ⟨_, hc.2⟩
      · exact ⟨_, hc.2⟩

theorem provide_filterMap {α : Type} (f : Call → Option α)
    (hf : ∀ msg, f (Call.error_logging msg) = none)
    (h : Helpers) (aws : AWS) (p : UserdataProvider) :
    (p.provide h aws).2.filterMap f = [] := by
  rw [List.filterMap_eq_nil_iff]
  intro c hc
  obtain ⟨msg, rfl⟩ := provide_logs_only h aws p c hc
  exact hf msg

/-- The list `Deploy` builds from a configured list and the mandatory
health-check entry. -/
theorem deployRegion_targetGroupsHanded (h : Helpers) (aws : AWS) (b : Deployer)
    (config : Config) (region : RegionConfig) :
    (deployRegion h aws b config region).2.filterMap Call.targetGroupsHanded =
      [(region.Region,
        if region.HealthcheckTargetGroup ∈ region.TargetGroups then region.TargetGroups
        else region.TargetGroups ++ [region.HealthcheckTargetGroup])] := by
  by_cases hret : aws.CreateNewLaunchConfiguration region.Region
      (h.generateLcName (h.generateAsgName
        (h.buildPrefixName b.AwsConfig.Name b.Stack.Env region.Region)
        (h.getCurrentVersion
          ((aws.GetAllMatchingAutoscalingGroupsWithPrefix region.Region
            (h.buildPrefixName b.AwsConfig.Name b.Stack.Env region.Region)).map
            (fun asgGroup => h.parseVersion asgGroup.AutoScalingGroupName)))))
      config.Ami = true <;>
  by_cases hin : region.HealthcheckTargetGroup ∈ region.TargetGroups <;>
  simp [deployRegion, Call.targetGroupsHanded, List.filterMap_append, List.filterMap_cons,
    IsStringInArray_iff, hret, hin, provide_filterMap Call.targetGroupsHanded (fun _ => rfl)]

theorem deployRegion_loadBalancersHanded (h : Helpers) (aws : AWS) (b : Deployer)
    (config : Config) (region : RegionConfig) :
    (deployRegion h aws b config region).2.filterMap Call.loadBalancersHanded =
      [(region.Region,
        if region.HealthcheckLB ∈ region.LoadBalancers then region.LoadBalancers
        else region.LoadBalancers ++ [region.HealthcheckLB])] := by
  by_cases hret : aws.CreateNewLaunchConfiguration region.Region
      (h.generateLcName (h.generateAsgName
        (h.buildPrefixName b.AwsConfig.Name b.Stack.Env region.Region)
        (h.getCurrentVersion
          ((aws.GetAllMatchingAutoscalingGroupsWithPrefix region.Region
            (h.buildPrefixName b.AwsConfig.Name b.Stack.Env region.Region)).map
            (fun asgGroup => h.parseVersion asgGroup.AutoScalingGroupName)))))
      config.Ami = true <;>
  by_cases hin : region.HealthcheckLB ∈ region.LoadBalancers <;>
  simp [deployRegion, Call.loadBalancersHanded, List.filterMap_append, List.filterMap_cons,
    IsStringInArray_iff, hret, hin, provide_filterMap Call.loadBalancersHanded (fun _ => rfl)]

/-- The body of the loop of `Deploy` writes the two maps and nothing else of the
deployer. -/
theorem deployRegion_frame (h : Helpers) (aws : AWS) (b : Deployer) (config : Config)
    (region : RegionConfig) :
    (deployRegion h aws b config region).1.Stack = b.Stack ∧
    (deployRegion h aws b config region).1.AwsConfig = b.AwsConfig := by
  simp [deployRegion]

theorem deployLoop_frame (h : Helpers) (aws : AWS) (config : Config) :
    ∀ (rs : List RegionConfig) (b : Deployer),
      (deployLoop h aws config rs b).1.Stack = b.Stack ∧
      (deployLoop h aws config rs b).1.AwsConfig = b.AwsConfig
  | [], b => by simp [deployLoop]
  | region :: rest, b => by
    by_cases hs : skippedByUser config region = true
    · simpa [deployLoop, hs] using deployLoop_frame h aws config rest b
    · have ih := deployLoop_frame h aws config rest (deployRegion h aws b config region).1
      have hf := deployRegion_frame h aws b config region
      simp only [deployLoop, hs, Bool.false_eq_true, if_false]
      exact ⟨ih.1.trans hf.1, ih.2.trans hf.2⟩

theorem deployLoop_targetGroupsHanded (h : Helpers) (aws : AWS) (config : Config) :
    ∀ (rs : List RegionConfig) (b : Deployer),
      (deployLoop h aws config rs b).2.filterMap Call.targetGroupsHanded =
        (rs.filter (fun region => !skippedByUser config region)).map (fun region =>
          (region.Region,
            if region.HealthcheckTargetGroup ∈ region.TargetGroups then region.TargetGroups
            else region.TargetGroups ++ [region.HealthcheckTargetGroup]))
  | [], b => by simp [deployLoop]
  | region :: rest, b => by
    by_cases hs : skippedByUser config region = true
    · simpa [deployLoop, hs] using deployLoop_targetGroupsHanded h aws config rest b
    · have ih := deployLoop_targetGroupsHanded h aws config rest
        (deployRegion h aws b config region).1
      have hr := deployRegion_targetGroupsHanded h aws b config region
      simp only [Bool.not_eq_true] at hs
      simp only [deployLoop, hs, Bool.false_eq_true, if_false, List.filterMap_append, ih, hr,
        List.filter_cons, Bool.not_false, if_true, List.map_cons, List.singleton_append]

theorem deployLoop_loadBalancersHanded (h : Helpers) (aws : AWS) (config : Config) :
    ∀ (rs : List RegionConfig) (b : Deployer),
      (deployLoop h aws config rs b).2.filterMap Call.loadBalancersHanded =
        (rs.filter (fun region => !skippedByUser config region)).map (fun region =>
          (region.Region,
            if region.HealthcheckLB ∈ region.LoadBalancers then region.LoadBalancers
            else region.LoadBalancers ++ [region.HealthcheckLB]))
  | [], b => by simp [deployLoop]
  | region :: rest, b => by
    by_cases hs : skippedByUser config region = true
    · simpa [deployLoop, hs] using deployLoop_loadBalancersHanded h aws config rest b
    · have ih := deployLoop_loadBalancersHanded h aws config rest
        (deployRegion h aws b config region).1
      have hr := deployRegion_loadBalancersHanded h aws b config region
      simp only [Bool.not_eq_true] at hs
      simp only [deployLoop, hs, Bool.false_eq_true, if_false, List.filterMap_append, ih, hr,
        List.filter_cons, Bool.not_false, if_true, List.map_cons, List.singleton_append]

theorem mem_withHealthcheck (hc : String) (l : List String) :
    hc ∈ (if hc ∈ l then l else l ++ [hc]) ∧
      (hc ∈ l → (if hc ∈ l then l else l ++ [hc]).count hc = l.count hc) := by
  by_cases hin : hc ∈ l
  · simp [hin]
  · simp [hin]

/-- Claim C6. In `Deploy`, the lists handed to `GetTargetGroupARNs`, one per
processed region in configured order, are `region.TargetGroups` unchanged when
`region.HealthcheckTargetGroup` is a member, and otherwise `region.TargetGroups`
with `region.HealthcheckTargetGroup` appended once at its end. The load-balancer
lists handed to `CreateAutoScalingGroup` follow the same rule from
`region.LoadBalancers` and `region.HealthcheckLB`. Every list handed over
contains the health-check entry of its region, and when the entry was already
present its number of occurrences is that of the configured list. -/
theorem Deploy_health_check_entries (h : Helpers) (aws : AWS) (b : Deployer)
    (config : Config) :
    ((Deploy h aws b config).2.filterMap Call.targetGroupsHanded =
      (b.Stack.Regions.filter (fun region => !skippedByUser config region)).map (fun region =>
        (region.Region,
          if region.HealthcheckTargetGroup ∈ region.TargetGroups then region.TargetGroups
          else region.TargetGroups ++ [region.HealthcheckTargetGroup]))) ∧
    ((Deploy h aws b config).2.filterMap Call.loadBalancersHanded =
      (b.Stack.Regions.filter (fun region => !skippedByUser config region)).map (fun region =>
        (region.Region,
          if region.HealthcheckLB ∈ region.LoadBalancers then region.LoadBalancers
          else region.LoadBalancers ++ [region.HealthcheckLB]))) ∧
    (∀ handed ∈ (Deploy h aws b config).2.filterMap Call.targetGroupsHanded,
      ∃ region ∈ b.Stack.Regions, skippedByUser config region = false ∧
        handed.1 = region.Region ∧ region.HealthcheckTargetGroup ∈ handed.2 ∧
        (region.HealthcheckTargetGroup ∈ region.TargetGroups →
          handed.2.count region.HealthcheckTargetGroup =
            region.TargetGroups.count region.HealthcheckTargetGroup)) ∧
    (∀ handed ∈ (Deploy h aws b config).2.filterMap Call.loadBalancersHanded,
      ∃ region ∈ b.Stack.Regions, skippedByUser config region = false ∧
        handed.1 = region.Region ∧ region.HealthcheckLB ∈ handed.2 ∧
        (region.HealthcheckLB ∈ region.LoadBalancers →
          handed.2.count region.HealthcheckLB =
            region.LoadBalancers.count region.HealthcheckLB)) := by
  have htg := deployLoop_targetGroupsHanded h aws config b.Stack.Regions b
  have hlb := deployLoop_loadBalancersHanded h aws config b.Stack.Regions b
  refine ⟨htg, hlb, ?_, ?_⟩
  · intro handed hmem
    unfold Deploy at hmem
    rw [htg] at hmem
    simp only [List.mem_map, List.mem_filter, Bool.not_eq_true'] at hmem
    obtain ⟨region, ⟨hin, hs⟩, rfl⟩ := hmem
    exact ⟨region, hin, hs, rfl,
      (mem_withHealthcheck region.HealthcheckTargetGroup region.TargetGroups).1,
      (mem_withHealthcheck region.HealthcheckTargetGroup region.TargetGroups).2⟩
  · intro handed hmem
    unfold Deploy at hmem
    rw [hlb] at hmem
    simp only [List.mem_map, List.mem_filter, Bool.not_eq_true'] at hmem
    obtain ⟨region, ⟨hin, hs⟩, rfl⟩ := hmem
    exact ⟨region, hin, hs, rfl,
      (mem_withHealthcheck region.HealthcheckLB region.LoadBalancers).1,
      (mem_withHealthcheck region.HealthcheckLB region.LoadBalancers).2⟩


/-- A region passes the region check when the filter is empty or names it. -/
theorem skippedByUser_eq_false_iff (config : Config) (region : RegionConfig) :
    skippedByUser config region = false ↔
      (config.Region = "" ∨ config.Region = region.Region) := by
  by_cases h : config.Region = ""
  · simp [skippedByUser, h]
  · rw [skippedByUser_of_filter config region h]
    constructor
    · intro he
      exact Or.inr he.symm
    · rintro (he | he)
      · exact absurd he h
      · exact he.symm

theorem skippedByUser_congr (config : Config) (r₁ r₂ : RegionConfig)
    (hname : r₁.Region = r₂.Region) : skippedByUser config r₁ = skippedByUser config r₂ := by
  simp [skippedByUser, hname]

/-- The fleet name `Deploy` generates for a region. -/
theorem deployRegion_AsgNames (h : Helpers) (aws : AWS) (b : Deployer) (config : Config)
    (region : RegionConfig) (k : String) :
    (deployRegion h aws b config region).1.AsgNames k =
      if k = region.Region then
        h.generateAsgName (h.buildPrefixName b.AwsConfig.Name b.Stack.Env region.Region)
          (h.getCurrentVersion
            ((aws.GetAllMatchingAutoscalingGroupsWithPrefix region.Region
              (h.buildPrefixName b.AwsConfig.Name b.Stack.Env region.Region)).map
              (fun asgGroup => h.parseVersion asgGroup.AutoScalingGroupName)))
      else b.AsgNames k := by
  simp [deployRegion]

theorem deployRegion_PrevAsgs (h : Helpers) (aws : AWS) (b : Deployer) (config : Config)
    (region : RegionConfig) (k : String) :
    (deployRegion h aws b config region).1.PrevAsgs k =
      if k = region.Region then
        (aws.GetAllMatchingAutoscalingGroupsWithPrefix region.Region
          (h.buildPrefixName b.AwsConfig.Name b.Stack.Env region.Region)).map
          (fun asgGroup => asgGroup.AutoScalingGroupName)
      else b.PrevAsgs k := by
  simp [deployRegion]

/-- The loop of `Deploy` leaves the entries of a key untouched when no processed
region bears that name. -/
theorem deployLoop_untouched (h : Helpers) (aws : AWS) (config : Config) (k : String) :
    ∀ (rs : List RegionConfig) (b : Deployer),
      (∀ region ∈ rs, skippedByUser config region = false → region.Region ≠ k) →
      (deployLoop h aws config rs b).1.AsgNames k = b.AsgNames k ∧
      (deployLoop h aws config rs b).1.PrevAsgs k = b.PrevAsgs k
  | [], b, _ => by simp [deployLoop]
  | region :: rest, b, hk => by
    have hrest : ∀ r ∈ rest, skippedByUser config r = false → r.Region ≠ k :=
      fun r hr => hk r (List.mem_cons_of_mem _ hr)
    by_cases hs : skippedByUser config region = true
    · simpa [deployLoop, hs] using deployLoop_untouched h aws config k rest b hrest
    · simp only [Bool.not_eq_true] at hs
      have hne : k ≠ region.Region := fun he => hk region (List.mem_cons_self _ _) hs he.symm
      have ih := deployLoop_untouched h aws config k rest
        (deployRegion h aws b config region).1 hrest
      simp only [deployLoop, hs, Bool.false_eq_true, if_false]
      rw [ih.1, ih.2, deployRegion_AsgNames, deployRegion_PrevAsgs, if_neg hne, if_neg hne]
      exact ⟨rfl, rfl⟩

/-- With pairwise distinct region names, `Deploy` leaves at the key of a
processed region what the body of the loop wrote for it. -/
theorem deployLoop_written (h : Helpers) (aws : AWS) (config : Config) :
    ∀ (rs : List RegionConfig) (b : Deployer),
      (rs.map (fun region => region.Region)).Nodup →
      ∀ region ∈ rs, skippedByUser config region = false →
        (deployLoop h aws config rs b).1.PrevAsgs region.Region =
          (aws.GetAllMatchingAutoscalingGroupsWithPrefix region.Region
            (h.buildPrefixName b.AwsConfig.Name b.Stack.Env region.Region)).map
            (fun asgGroup => asgGroup.AutoScalingGroupName) ∧
        (deployLoop h aws config rs b).1.AsgNames region.Region =
          h.generateAsgName (h.buildPrefixName b.AwsConfig.Name b.Stack.Env region.Region)
            (h.getCurrentVersion
              ((aws.GetAllMatchingAutoscalingGroupsWithPrefix region.Region
                (h.buildPrefixName b.AwsConfig.Name b.Stack.Env region.Region)).map
                (fun asgGroup => h.parseVersion asgGroup.AutoScalingGroupName)))
  | [], _, _, region, hmem, _ => by simp at hmem
  | r :: rest, b, hnd, region, hmem, hpass => by
    rw [List.map_cons, List.nodup_cons] at hnd
    rcases List.mem_cons.mp hmem with rfl | hin
    · have hun := deployLoop_untouched h aws config region.Region rest
        (deployRegion h aws b config region).1
        (fun r hr _ hname => hnd.1 (List.mem_map.mpr ⟨r, hr, hname⟩))
      simp only [deployLoop, hpass, Bool.false_eq_true, if_false]
      rw [hun.1, hun.2, deployRegion_AsgNames, deployRegion_PrevAsgs, if_pos rfl, if_pos rfl]
      exact ⟨rfl, rfl⟩
    · by_cases hs : skippedByUser config r = true
      · simpa [deployLoop, hs] using
          deployLoop_written h aws config rest b hnd.2 region hin hpass
      · have ih := deployLoop_written h aws config rest (deployRegion h aws b config r).1
          hnd.2 region hin hpass
        have hf := deployRegion_frame h aws b config r
        rw [hf.1, hf.2] at ih
        simpa [deployLoop, hs] using ih

/-- Every provisioning call of `Deploy` is made for a processed region. -/
theorem deployLoop_provisioned (h : Helpers) (aws : AWS) (config : Config) :
    ∀ (rs : List RegionConfig) (b : Deployer),
      ∀ c ∈ (deployLoop h aws config rs b).2, ∀ name : String,
        c.provisionedRegion = some name →
        ∃ region ∈ rs, skippedByUser config region = false ∧ region.Region = name
  | [], _, c, hc, _, _ => by simp [deployLoop] at hc
  | r :: rest, b, c, hc, name, hname => by
    by_cases hs : skippedByUser config r = true
    · simp only [deployLoop, hs, if_true] at hc
      obtain ⟨region, hin, hp, he⟩ := deployLoop_provisioned h aws config rest b c hc name hname
      exact ⟨region, List.mem_cons_of_mem _ hin, hp, he⟩
    · simp only [Bool.not_eq_true] at hs
      simp only [deployLoop, hs, Bool.false_eq_true, if_false, List.mem_append] at hc
      rcases hc with hc | hc
      · refine ⟨r, List.mem_cons_self _ _, hs, ?_⟩
        simp only [deployRegion, List.mem_append, List.mem_cons, List.mem_singleton,
          List.mem_ite_nil_right, List.not_mem_nil, or_false] at hc
        casesm* _ ∨ _ <;> rename_i hc <;>
          first
          | (rw [hc] at hname; simp [Call.provisionedRegion] at hname; exact hname)
          | (rw [hc.2] at hname; simp [Call.provisionedRegion] at hname)
          | (rw [hc] at hname; simp [Call.provisionedRegion] at hname)
          | (obtain ⟨msg, hmsg⟩ := provide_logs_only _ _ _ _ hc
             rw [hmsg] at hname
             simp [Call.provisionedRegion] at hname)
      · obtain ⟨region, hin, hp, he⟩ :=
          deployLoop_provisioned h aws config rest _ c hc name hname
        exact ⟨region, List.mem_cons_of_mem _ hin, hp, he⟩

/-- Claim C10. With pairwise distinct region names, after `Deploy`: for each
configured region that passes the filter (filter empty or equal to the region
name) `PrevAsgs[region]` is the list of names of the fleets returned by
`GetAllMatchingAutoscalingGroupsWithPrefix` for the prefix of the region, in
returned order, and `AsgNames[region]` is the newly generated fleet name; for
each configured region that does not pass the filter both entries are unchanged
and no provisioning call is made for it. -/
theorem Deploy_state_maps (h : Helpers) (aws : AWS) (b : Deployer) (config : Config)
    (hdistinct : (b.Stack.Regions.map (fun region => region.Region)).Nodup) :
    (∀ region ∈ b.Stack.Regions, (config.Region = "" ∨ config.Region = region.Region) →
      (Deploy h aws b config).1.PrevAsgs region.Region =
        (aws.GetAllMatchingAutoscalingGroupsWithPrefix region.Region
          (h.buildPrefixName b.AwsConfig.Name b.Stack.Env region.Region)).map
          (fun asgGroup => asgGroup.AutoScalingGroupName) ∧
      (Deploy h aws b config).1.AsgNames region.Region =
        h.generateAsgName (h.buildPrefixName b.AwsConfig.Name b.Stack.Env region.Region)
          (h.getCurrentVersion
            ((aws.GetAllMatchingAutoscalingGroupsWithPrefix region.Region
              (h.buildPrefixName b.AwsConfig.Name b.Stack.Env region.Region)).map
              (fun asgGroup => h.parseVersion asgGroup.AutoScalingGroupName)))) ∧
    (∀ region ∈ b.Stack.Regions, ¬ (config.Region = "" ∨ config.Region = region.Region) →
      (Deploy h aws b config).1.AsgNames region.Region = b.AsgNames region.Region ∧
      (Deploy h aws b config).1.PrevAsgs region.Region = b.PrevAsgs region.Region ∧
      ∀ c ∈ (Deploy h aws b config).2, c.provisionedRegion ≠ some region.Region) := by
  constructor
  · intro region hmem hpass
    exact deployLoop_written h aws config b.Stack.Regions b hdistinct region hmem
      ((skippedByUser_eq_false_iff config region).mpr hpass)
  · intro region _ hskip
    have hs : skippedByUser config region ≠ false :=
      fun hf => hskip ((skippedByUser_eq_false_iff config region).mp hf)
    have hother : ∀ r ∈ b.Stack.Regions, skippedByUser config r = false →
        r.Region ≠ region.Region := by
      intro r _ hr hname
      exact hs ((skippedByUser_congr config r region hname) ▸ hr)
    have hun := deployLoop_untouched h aws config region.Region b.Stack.Regions b hother
    refine ⟨hun.1, hun.2, ?_⟩
    intro c hc hprov
    obtain ⟨r, hr, hp, hname⟩ :=
      deployLoop_provisioned h aws config b.Stack.Regions b c hc region.Region hprov
    exact hother r hr hp hname

/-- Instance of C10 on the sample stack with the filter `A`: region `A` gets
the new fleet `demo-v002` and the previous fleet `demo-v001`, region `B` keeps
its empty entries. -/
theorem Deploy_state_maps_witness :
    (sampleDeployer.Stack.Regions.map (fun region => region.Region)).Nodup ∧
    (Deploy sampleHelpers (sampleAWS []) sampleDeployer (sampleConfig "A")).1.PrevAsgs "A" =
      ["demo-v001"] ∧
    (Deploy sampleHelpers (sampleAWS []) sampleDeployer (sampleConfig "A")).1.AsgNames "A" =
      "demo-v002" ∧
    (Deploy sampleHelpers (sampleAWS []) sampleDeployer (sampleConfig "A")).1.AsgNames "B" =
      sampleDeployer.AsgNames "B" :=
  ⟨by decide,
    ((Deploy_state_maps sampleHelpers (sampleAWS []) sampleDeployer (sampleConfig "A")
      (by decide)).1 (sampleRegion "A") (by decide) (Or.inr rfl)).1.trans (by decide),
    ((Deploy_state_maps sampleHelpers (sampleAWS []) sampleDeployer (sampleConfig "A")
      (by decide)).1 (sampleRegion "A") (by decide) (Or.inr rfl)).2.trans (by decide),
    ((Deploy_state_maps sampleHelpers (sampleAWS []) sampleDeployer (sampleConfig "A")
      (by decide)).2 (sampleRegion "B") (by decide) (by decide)).1⟩


/-! ## Finalizing -/

/-- Claim C7. Fresh deployer for regions `[A, B]` with one scaling policy,
`Deploy` with the region filter `B`, then `FinishAdditionalWork`: the first
three finalizing calls are made for region `A`, which the filter excludes, with
the empty fleet name read from the missing `AsgNames` entry; `FinishAdditionalWork`
has no region check. -/
theorem FinishAdditionalWork_without_region_check :
    sampleDeployer.Stack.Autoscaling.length = 1 ∧
    (Deploy sampleHelpers (sampleAWS []) sampleDeployer (sampleConfig "B")).1.AsgNames "A" = "" ∧
    (Deploy sampleHelpers (sampleAWS []) sampleDeployer (sampleConfig "B")).1.AsgNames "B" =
      "demo-v001" ∧
    (FinishAdditionalWork (sampleAWS [])
      (Deploy sampleHelpers (sampleAWS []) sampleDeployer (sampleConfig "B")).1).2.filterMap
        Call.finalizedFleet =
      [("A", ""), ("A", ""), ("A", ""),
        ("B", "demo-v001"), ("B", "demo-v001"), ("B", "demo-v001")] := by
  decide

theorem createPolicies_ok (aws : AWS) (region asg : String) :
    ∀ (ps : List ScalePolicy) (p : List String × List String),
      (createPolicies aws region asg ps).1 = Except.ok p →
      (∀ c ∈ (createPolicies aws region asg ps).2, c.scalingPolicyError aws = none) ∧
      (∀ policy ∈ ps, ∃ arn, aws.CreateScalingPolicy region policy asg = Except.ok arn)
  | [], _, _ => by simp [createPolicies]
  | policy :: rest, p, hok => by
    unfold createPolicies at hok ⊢
    cases hc : aws.CreateScalingPolicy region policy asg with
    | error err => simp [hc] at hok
    | ok arn =>
      simp only [hc] at hok ⊢
      cases hrest : (createPolicies aws region asg rest).1 with
      | error err => simp [hrest] at hok
      | ok q =>
        have ih := createPolicies_ok aws region asg rest q hrest
        constructor
        · intro c hmem
          rcases List.mem_cons.mp hmem with rfl | hin
          · simp [Call.scalingPolicyError, hc]
          · exact ih.1 c hin
        · intro pol hmem
          rcases List.mem_cons.mp hmem with rfl | hin
          · exact ⟨arn, hc⟩
          · exact ih.2 pol hin

theorem createPolicies_error (aws : AWS) (region asg : String) :
    ∀ (ps : List ScalePolicy) (err : String),
      (createPolicies aws region asg ps).1 = Except.error err →
      ∃ pre policy, policy ∈ ps ∧
        (createPolicies aws region asg ps).2 =
          pre ++ [Call.CreateScalingPolicy region policy asg, Call.error_logging err] ∧
        aws.CreateScalingPolicy region policy asg = Except.error err ∧
        ∀ c ∈ pre, c.scalingPolicyError aws = none
  | [], err, h => by simp [createPolicies] at h
  | policy :: rest, err, herr => by
    unfold createPolicies at herr ⊢
    cases hc : aws.CreateScalingPolicy region policy asg with
    | error e =>
      simp only [hc] at herr ⊢
      have he : e = err := by simpa using herr
      subst he
      exact ⟨[], policy, List.mem_cons_self _ _, rfl, hc, by simp⟩
    | ok arn =>
      simp only [hc] at herr ⊢
      cases hrest : (createPolicies aws region asg rest).1 with
      | ok q => simp [hrest] at herr
      | error e =>
        have he : e = err := by simpa [hrest] using herr
        subst he
        obtain ⟨pre, pol, hmem, htrace, hfail, hpre⟩ :=
          createPolicies_error aws region asg rest e hrest
        refine ⟨Call.CreateScalingPolicy region policy asg :: pre, pol,
          List.mem_cons_of_mem _ hmem, ?_, hfail, ?_⟩
        · rw [htrace]
          rfl
        · intro c hmem
          rcases List.mem_cons.mp hmem with rfl | hin
          · simp [Call.scalingPolicyError, hc]
          · exact hpre c hin

theorem finishLoop_none (aws : AWS) (b : Deployer) :
    ∀ rs : List RegionConfig, (finishLoop aws b rs).1 = none →
      (∀ c ∈ (finishLoop aws b rs).2, c.scalingPolicyError aws = none) ∧
      (∀ region ∈ rs, ∀ policy ∈ b.Stack.Autoscaling, ∃ arn,
        aws.CreateScalingPolicy region.Region policy (b.AsgNames region.Region) = Except.ok arn)
  | [], _ => by simp [finishLoop]
  | region :: rest, hnone => by
    unfold finishLoop at hnone ⊢
    cases hp : (createPolicies aws region.Region (b.AsgNames region.Region)
        b.Stack.Autoscaling).1 with
    | error err => simp [hp] at hnone
    | ok p =>
      simp only [hp] at hnone ⊢
      have hok := createPolicies_ok aws region.Region (b.AsgNames region.Region)
        b.Stack.Autoscaling p hp
      have ih := finishLoop_none aws b rest hnone
      constructor
      · intro c hmem
        simp only [List.mem_append, List.mem_cons, List.mem_singleton, List.not_mem_nil,
          or_false] at hmem
        rcases hmem with (hmem | hmem | hmem) | hmem
        · exact hok.1 c hmem
        · simp [hmem, Call.scalingPolicyError]
        · simp [hmem, Call.scalingPolicyError]
        · exact ih.1 c hmem
      · intro r hmem
        rcases List.mem_cons.mp hmem with rfl | hin
        · exact hok.2
        · exact ih.2 r hin

theorem finishLoop_error (aws : AWS) (b : Deployer) :
    ∀ (rs : List RegionConfig) (err : String), (finishLoop aws b rs).1 = some err →
      ∃ pre region policy, region ∈ rs ∧ policy ∈ b.Stack.Autoscaling ∧
        (finishLoop aws b rs).2 =
          pre ++ [Call.CreateScalingPolicy region.Region policy (b.AsgNames region.Region),
            Call.error_logging err] ∧
        aws.CreateScalingPolicy region.Region policy (b.AsgNames region.Region) =
          Except.error err ∧
        ∀ c ∈ pre, c.scalingPolicyError aws = none
  | [], err, h => by simp [finishLoop] at h
  | region :: rest, err, herr => by
    unfold finishLoop at herr ⊢
    cases hp : (createPolicies aws region.Region (b.AsgNames region.Region)
        b.Stack.Autoscaling).1 with
    | error e =>
      simp only [hp] at herr ⊢
      have he : e = err := by simpa using herr
      subst he
      obtain ⟨pre, policy, hmem, htrace, hfail, hpre⟩ :=
        createPolicies_error aws region.Region (b.AsgNames region.Region)
          b.Stack.Autoscaling e hp
      exact ⟨pre, region, policy, List.mem_cons_self _ _, hmem, htrace, hfail, hpre⟩
    | ok p =>
      simp only [hp] at herr ⊢
      have hok := createPolicies_ok aws region.Region (b.AsgNames region.Region)
        b.Stack.Autoscaling p hp
      obtain ⟨pre, r, policy, hr, hmem, htrace, hfail, hpre⟩ :=
        finishLoop_error aws b rest err herr
      refine ⟨(createPolicies aws region.Region (b.AsgNames region.Region)
          b.Stack.Autoscaling).2 ++
          [Call.EnableMetrics region.Region (b.AsgNames region.Region),
            Call.CreateScalingAlarms region.Region (b.AsgNames region.Region) b.Stack.Alarms
              p.1 p.2] ++ pre, r, policy, List.mem_cons_of_mem _ hr, hmem, ?_, hfail, ?_⟩
      · rw [htrace]
        simp
      · intro c hc
        simp only [List.mem_append, List.mem_cons, List.mem_singleton, List.not_mem_nil,
          or_false] at hc
        rcases hc with (hc | hc | hc) | hc
        · exact hok.1 c hc
        · simp [hc, Call.scalingPolicyError]
        · simp [hc, Call.scalingPolicyError]
        · exact hpre c hc

/-- Claim C8. `FinishAdditionalWork` returns nil exactly when no
`CreateScalingPolicy` call it makes fails, which is the case exactly when the
call succeeds for every policy of every region. A failing call ends the trace:
after it only the error is logged, the error returned is the one of that call,
and every call before it succeeded; so no `CreateScalingPolicy`,
`EnableMetrics` or `CreateScalingAlarms` call follows, for that region or a
later one. -/
theorem FinishAdditionalWork_error_propagation (aws : AWS) (b : Deployer) :
    ((FinishAdditionalWork aws b).1 = none ↔
      ∀ c ∈ (FinishAdditionalWork aws b).2, c.scalingPolicyError aws = none) ∧
    ((FinishAdditionalWork aws b).1 = none ↔
      ∀ region ∈ b.Stack.Regions, ∀ policy ∈ b.Stack.Autoscaling, ∃ arn,
        aws.CreateScalingPolicy region.Region policy (b.AsgNames region.Region) =
          Except.ok arn) ∧
    (∀ c ∈ (FinishAdditionalWork aws b).2, ∀ err, c.scalingPolicyError aws = some err →
      (FinishAdditionalWork aws b).1 = some err ∧
      ∃ pre, (FinishAdditionalWork aws b).2 = pre ++ [c, Call.error_logging err] ∧
        ∀ earlier ∈ pre, earlier.scalingPolicyError aws = none) := by
  by_cases hempty : b.Stack.Autoscaling = []
  · simp [FinishAdditionalWork, hempty]
  · have hlen : ¬ b.Stack.Autoscaling.length = 0 := by
      simpa [List.length_eq_zero] using hempty
    have hrun : FinishAdditionalWork aws b = finishLoop aws b b.Stack.Regions := by
      simp [FinishAdditionalWork, hlen]
    rw [hrun]
    cases hres : (finishLoop aws b b.Stack.Regions).1 with
    | none =>
      have hn := finishLoop_none aws b b.Stack.Regions hres
      refine ⟨⟨fun _ => hn.1, fun _ => rfl⟩, ⟨fun _ => hn.2, fun _ => rfl⟩, ?_⟩
      intro c hc err herr
      rw [hn.1 c hc] at herr
      simp at herr
    | some e =>
      obtain ⟨pre, region, policy, hr, hmem, htrace, hfail, hpre⟩ :=
        finishLoop_error aws b b.Stack.Regions e hres
      have hlast : (Call.CreateScalingPolicy region.Region policy
          (b.AsgNames region.Region)).scalingPolicyError aws = some e := by
        simp [Call.scalingPolicyError, hfail]
      refine ⟨⟨fun h => by simp at h, ?_⟩, ⟨fun h => by simp at h, ?_⟩, ?_⟩
      · intro hall
        have := hall (Call.CreateScalingPolicy region.Region policy (b.AsgNames region.Region))
          (by rw [htrace]; simp)
        rw [hlast] at this
        simp at this
      · intro hall
        obtain ⟨arn, harn⟩ := hall region hr policy hmem
        rw [hfail] at harn
        simp at harn
      · intro c hc err herr
        rw [htrace] at hc ⊢
        simp only [List.mem_append, List.mem_cons, List.mem_singleton, List.not_mem_nil,
          or_false] at hc
        rcases hc with hc | hc | hc
        · rw [hpre c hc] at herr
          simp at herr
        · subst hc
          rw [hlast] at herr
          have he : e = err := by simpa using herr
          subst he
          exact ⟨rfl, pre, rfl, hpre⟩
        · subst hc
          simp [Call.scalingPolicyError] at herr


/-- Instance of C8 on the deployed sample stack: the policy is created in
region `A`, refused in region `B`; the refusal is returned and ends the trace. -/
theorem FinishAdditionalWork_error_propagation_witness :
    (FinishAdditionalWork failingAWS deployedSample).1 = some "AccessDenied" ∧
    ∃ pre, (FinishAdditionalWork failingAWS deployedSample).2 =
        pre ++ [Call.CreateScalingPolicy "B" samplePolicy "demo-v001",
          Call.error_logging "AccessDenied"] ∧
      ∀ earlier ∈ pre, earlier.scalingPolicyError failingAWS = none :=
  (FinishAdditionalWork_error_propagation failingAWS deployedSample).2.2
    (Call.CreateScalingPolicy "B" samplePolicy "demo-v001") (by decide)
    "AccessDenied" (by decide)

/-! ## Decommissioning -/

theorem runUntilError_append (answer : Call → Option String) :
    ∀ l₁ l₂ : List Call,
      runUntilError answer (l₁ ++ l₂) =
        match (runUntilError answer l₁).1 with
        | some err => (some err, (runUntilError answer l₁).2)
        | none => ((runUntilError answer l₂).1,
            (runUntilError answer l₁).2 ++ (runUntilError answer l₂).2)
  | [], l₂ => by simp [runUntilError]
  | c :: l₁, l₂ => by
    have ih := runUntilError_append answer l₁ l₂
    cases hc : answer c with
    | some err => simp [runUntilError, hc]
    | none =>
      cases hrest : (runUntilError answer l₁).1 with
      | some err => simp [runUntilError, hc, hrest, ih]
      | none => simp [runUntilError, hc, hrest, ih]

theorem runUntilError_all_ok (answer : Call → Option String) :
    ∀ l : List Call, (∀ c ∈ l, answer c = none) → runUntilError answer l = (none, l)
  | [], _ => rfl
  | c :: l, hall => by
    have hc : answer c = none := hall c (List.mem_cons_self _ _)
    have ih := runUntilError_all_ok answer l (fun x hx => hall x (List.mem_cons_of_mem _ hx))
    simp [runUntilError, hc, ih]

theorem runUntilError_first_error (answer : Call → Option String) (c : Call)
    (post : List Call) (err : String) (hc : answer c = some err) :
    ∀ pre : List Call, (∀ x ∈ pre, answer x = none) →
      runUntilError answer (pre ++ c :: post) = (some err, pre ++ [c])
  | [], _ => by simp [runUntilError, hc]
  | x :: pre, hall => by
    have hx : answer x = none := hall x (List.mem_cons_self _ _)
    have ih := runUntilError_first_error answer c post err hc pre
      (fun y hy => hall y (List.mem_cons_of_mem _ hy))
    simp [runUntilError, hx, ih]

theorem resizeLoop_eq (aws : AWS) (region stack : String) :
    ∀ asgs : List String,
      resizeLoop aws region stack asgs =
        runUntilError (Call.resizeError aws)
          (asgs.map (fun asg => Call.ResizingAutoScalingGroupToZero region stack asg))
  | [] => rfl
  | asg :: rest => by
    have ih := resizeLoop_eq aws region stack rest
    cases hc : aws.ResizingAutoScalingGroupToZero region stack asg with
    | some err => simp [resizeLoop, runUntilError, Call.resizeError, hc]
    | none => simp [resizeLoop, runUntilError, Call.resizeError, hc, ih]

theorem cleanLoop_eq (aws : AWS) (b : Deployer) :
    ∀ rs : List RegionConfig,
      cleanLoop aws b rs =
        runUntilError (Call.resizeError aws)
          (rs.flatMap (fun region =>
            (b.PrevAsgs region.Region).map (fun asg =>
              Call.ResizingAutoScalingGroupToZero region.Region b.Stack.Stack asg)))
  | [] => rfl
  | region :: rest => by
    have ih := cleanLoop_eq aws b rest
    have hregion :
        (if (b.PrevAsgs region.Region).length > 0 then
            resizeLoop aws region.Region b.Stack.Stack (b.PrevAsgs region.Region)
          else (none, [])) =
          runUntilError (Call.resizeError aws)
            ((b.PrevAsgs region.Region).map (fun asg =>
              Call.ResizingAutoScalingGroupToZero region.Region b.Stack.Stack asg)) := by
      cases hprev : b.PrevAsgs region.Region with
      | nil => simp [runUntilError]
      | cons asg asgs =>
        rw [← hprev, ← resizeLoop_eq]
        simp [hprev]
    rw [List.flatMap_cons, runUntilError_append]
    unfold cleanLoop
    simp only [hregion, ih]

/-- Claim C9. When no resize call fails, `CleanPreviousVersion` returns nil and
the fleets it resizes to zero are the concatenation of `PrevAsgs[region]` over
`Stack.Regions` in configured order; when the first failing resize is the one
at some position of that sequence, it returns the error of that call and the
resizes made are those up to and including it. -/
theorem CleanPreviousVersion_resizes (aws : AWS) (b : Deployer) :
    ((∀ c ∈ allPreviousFleets b, c.resizeError aws = none) →
      CleanPreviousVersion aws b = (none, allPreviousFleets b)) ∧
    (∀ (pre : List Call) (c : Call) (post : List Call) (err : String),
      allPreviousFleets b = pre ++ c :: post →
      (∀ earlier ∈ pre, earlier.resizeError aws = none) →
      c.resizeError aws = some err →
      CleanPreviousVersion aws b = (some err, pre ++ [c])) := by
  have hrun : CleanPreviousVersion aws b =
      runUntilError (Call.resizeError aws) (allPreviousFleets b) :=
    cleanLoop_eq aws b b.Stack.Regions
  constructor
  · intro hall
    rw [hrun, runUntilError_all_ok _ _ hall]
  · intro pre c post err hsplit hpre hc
    rw [hrun, hsplit, runUntilError_first_error _ c post err hc pre hpre]


/-- Instance of C9 on the deployed sample stack: the resize of `demo-v001`
succeeds under the sample answers and is refused under the failing ones. -/
theorem CleanPreviousVersion_resizes_witness :
    CleanPreviousVersion (sampleAWS []) deployedSample =
      (none, [Call.ResizingAutoScalingGroupToZero "A" "demo" "demo-v001"]) ∧
    CleanPreviousVersion failingAWS deployedSample =
      (some "AccessDenied", [Call.ResizingAutoScalingGroupToZero "A" "demo" "demo-v001"]) :=
  ⟨((CleanPreviousVersion_resizes (sampleAWS []) deployedSample).1 (by decide)).trans
      (by decide),
    (CleanPreviousVersion_resizes failingAWS deployedSample).2 []
      (Call.ResizingAutoScalingGroupToZero "A" "demo" "demo-v001") [] "AccessDenied"
      (by decide) (by decide) (by decide)⟩

/-! ## Ordering of decommissioning and health convergence -/

theorem deployRegion_no_resize (h : Helpers) (aws : AWS) (b : Deployer) (config : Config)
    (region : RegionConfig) :
    ∀ c ∈ (deployRegion h aws b config region).2, c.isResize = false := by
  intro c hc
  simp only [deployRegion, List.mem_append, List.mem_cons, List.mem_singleton,
    List.mem_ite_nil_right, List.not_mem_nil, or_false] at hc
  casesm* _ ∨ _ <;> rename_i hc <;>
    first
    | (rw [hc]; rfl)
    | (rw [hc.2]; rfl)
    | (obtain ⟨msg, hmsg⟩ := provide_logs_only _ _ _ _ hc
       rw [hmsg]
       rfl)

theorem deployLoop_no_resize (h : Helpers) (aws : AWS) (config : Config) :
    ∀ (rs : List RegionConfig) (b : Deployer),
      ∀ c ∈ (deployLoop h aws config rs b).2, c.isResize = false
  | [], _, c, hc => by simp [deployLoop] at hc
  | region :: rest, b, c, hc => by
    by_cases hs : skippedByUser config region = true
    · simp only [deployLoop, hs, if_true] at hc
      exact deployLoop_no_resize h aws config rest b c hc
    · simp only [deployLoop, hs, Bool.false_eq_true, if_false, List.mem_append] at hc
      rcases hc with hc | hc
      · exact deployRegion_no_resize h aws b config region c hc
      · exact deployLoop_no_resize h aws config rest _ c hc

theorem Deploy_no_resize (h : Helpers) (aws : AWS) (b : Deployer) (config : Config) :
    ∀ c ∈ (Deploy h aws b config).2, c.isResize = false :=
  deployLoop_no_resize h aws config b.Stack.Regions b

theorem healthLoop_no_resize (aws : AWS) (b : Deployer) (config : Config) :
    ∀ rs : List RegionConfig, ∀ c ∈ (healthLoop aws b config rs).2, c.isResize = false
  | [], c, hc => by simp [healthLoop] at hc
  | region :: rest, c, hc => by
    by_cases hs : skippedByUser config region = true
    · simp only [healthLoop, hs, if_true] at hc
      exact healthLoop_no_resize aws b config rest c hc
    · simp only [healthLoop, hs, Bool.false_eq_true, if_false, List.mem_cons] at hc
      rcases hc with hc | hc | hc
      · rw [hc]; rfl
      · rw [hc]; rfl
      · exact healthLoop_no_resize aws b config rest c hc

theorem HealthChecking_trace (aws : AWS) (b : Deployer) (config : Config) :
    (HealthChecking aws b config).2 = (healthLoop aws b config b.Stack.Regions).2 := by
  unfold HealthChecking
  dsimp only
  split <;> rfl

theorem HealthChecking_no_resize (aws : AWS) (b : Deployer) (config : Config) :
    ∀ c ∈ (HealthChecking aws b config).2, c.isResize = false := by
  rw [HealthChecking_trace]
  exact healthLoop_no_resize aws b config b.Stack.Regions

theorem createPolicies_no_resize (aws : AWS) (region asg : String) :
    ∀ ps : List ScalePolicy, ∀ c ∈ (createPolicies aws region asg ps).2, c.isResize = false
  | [], c, hc => by simp [createPolicies] at hc
  | policy :: rest, c, hc => by
    unfold createPolicies at hc
    cases hp : aws.CreateScalingPolicy region policy asg with
    | error err =>
      simp only [hp, List.mem_cons, List.mem_singleton, List.not_mem_nil, or_false] at hc
      rcases hc with hc | hc
      · rw [hc]; rfl
      · rw [hc]; rfl
    | ok arn =>
      simp only [hp, List.mem_cons] at hc
      rcases hc with hc | hc
      · rw [hc]; rfl
      · exact createPolicies_no_resize aws region asg rest c hc

theorem finishLoop_no_resize (aws : AWS) (b : Deployer) :
    ∀ rs : List RegionConfig, ∀ c ∈ (finishLoop aws b rs).2, c.isResize = false
  | [], c, hc => by simp [finishLoop] at hc
  | region :: rest, c, hc => by
    have hp := createPolicies_no_resize aws region.Region (b.AsgNames region.Region)
      b.Stack.Autoscaling
    unfold finishLoop at hc
    dsimp only at hc
    cases hr : (createPolicies aws region.Region (b.AsgNames region.Region)
        b.Stack.Autoscaling).1 with
    | error err =>
      simp only [hr] at hc
      exact hp c hc
    | ok p =>
      simp only [hr, List.mem_append, List.mem_cons, List.mem_singleton, List.not_mem_nil,
        or_false] at hc
      rcases hc with (hc | hc | hc) | hc
      · exact hp c hc
      · rw [hc]; rfl
      · rw [hc]; rfl
      · exact finishLoop_no_resize aws b rest c hc

theorem FinishAdditionalWork_no_resize (aws : AWS) (b : Deployer) :
    ∀ c ∈ (FinishAdditionalWork aws b).2, c.isResize = false := by
  intro c hc
  unfold FinishAdditionalWork at hc
  split at hc
  · simp at hc
  · exact finishLoop_no_resize aws b b.Stack.Regions c hc

theorem checkTargets_no_resize (aws : AWS) (region : String) :
    ∀ (targets : List String) (isHealthy : Bool),
      ∀ c ∈ (checkTargets aws region targets isHealthy).2, c.isResize = false
  | [], _, c, hc => by simp [checkTargets] at hc
  | target :: rest, isHealthy, c, hc => by
    simp only [checkTargets, List.mem_cons] at hc
    rcases hc with hc | hc
    · rw [hc]; rfl
    · exact checkTargets_no_resize aws region rest _ c hc

theorem terminateLoop_no_resize (aws : AWS) (b : Deployer) (config : Config) :
    ∀ rs : List RegionConfig, ∀ c ∈ (terminateLoop aws b config rs).2, c.isResize = false
  | [], c, hc => by simp [terminateLoop] at hc
  | region :: rest, c, hc => by
    unfold terminateLoop at hc
    dsimp only at hc
    split at hc
    · exact terminateLoop_no_resize aws b config rest c hc
    · split at hc
      · exact terminateLoop_no_resize aws b config rest c hc
      · simp only [List.mem_append] at hc
        rcases hc with hc | hc
        · exact checkTargets_no_resize aws region.Region _ true c hc
        · exact terminateLoop_no_resize aws b config rest c hc

theorem TerminateChecking_trace (aws : AWS) (b : Deployer) (config : Config) :
    (TerminateChecking aws b config).2 = (terminateLoop aws b config b.Stack.Regions).2 := by
  unfold TerminateChecking
  dsimp only
  split <;> rfl

theorem TerminateChecking_no_resize (aws : AWS) (b : Deployer) (config : Config) :
    ∀ c ∈ (TerminateChecking aws b config).2, c.isResize = false := by
  rw [TerminateChecking_trace]
  exact terminateLoop_no_resize aws b config b.Stack.Regions

theorem gatedFrom_call (guarded : Entry → Bool) (healthy : Bool) (c : Call)
    (rest : List Entry) :
    gatedFrom guarded healthy (Entry.call c :: rest) =
      ((healthy || !guarded (Entry.call c)) && gatedFrom guarded healthy rest) := rfl

theorem gatedFrom_deploy (guarded : Entry → Bool) (healthy : Bool) (config : Config)
    (rest : List Entry) :
    gatedFrom guarded healthy (Entry.invoked (LifecycleCall.Deploy config) :: rest) =
      gatedFrom guarded false rest := rfl

theorem gatedFrom_healthReturned (guarded : Entry → Bool) (healthy ok : Bool)
    (snapshot : List (String × Bool))
    (hret : guarded (Entry.healthReturned false snapshot) = false) (rest : List Entry) :
    gatedFrom guarded healthy (Entry.healthReturned ok snapshot :: rest) =
      gatedFrom guarded (healthy || ok) rest := by
  cases ok with
  | true => cases healthy <;> rfl
  | false =>
    show ((healthy || !guarded (Entry.healthReturned false snapshot)) &&
      gatedFrom guarded healthy rest) = _
    rw [hret]
    simp

/-- Collaborator calls that are not guarded do not affect the scan. -/
theorem gatedFrom_calls (guarded : Entry → Bool) (healthy : Bool) (rest : List Entry) :
    ∀ cs : List Call, (∀ c ∈ cs, guarded (Entry.call c) = false) →
      gatedFrom guarded healthy (cs.map Entry.call ++ rest) = gatedFrom guarded healthy rest
  | [], _ => rfl
  | c :: cs, hall => by
    have ih := gatedFrom_calls guarded healthy rest cs
      (fun x hx => hall x (List.mem_cons_of_mem _ hx))
    rw [List.map_cons, List.cons_append, gatedFrom_call, ih, hall c (List.mem_cons_self _ _)]
    simp

/-- Once a health check of the release has returned true, collaborator calls
never fail the scan. -/
theorem gatedFrom_calls_healthy (guarded : Entry → Bool) (rest : List Entry) :
    ∀ cs : List Call,
      gatedFrom guarded true (cs.map Entry.call ++ rest) = gatedFrom guarded true rest
  | [] => rfl
  | c :: cs => by
    have ih := gatedFrom_calls_healthy guarded rest cs
    rw [List.map_cons, List.cons_append, gatedFrom_call, ih]
    simp

/-- An invocation other than `Deploy` passes the scan unless it is guarded
while no health check has returned true. -/
theorem gatedFrom_invoked (guarded : Entry → Bool) (healthy : Bool) (c : LifecycleCall)
    (hc : ∀ config, c ≠ LifecycleCall.Deploy config) (rest : List Entry) :
    gatedFrom guarded healthy (Entry.invoked c :: rest) =
      ((healthy || !guarded (Entry.invoked c)) && gatedFrom guarded healthy rest) := by
  cases c with
  | Deploy config => exact absurd rfl (hc config)
  | HealthChecking config => rfl
  | FinishAdditionalWork => rfl
  | CleanPreviousVersion => rfl
  | TerminateChecking config => rfl

theorem runLifecycle_gated (h : Helpers) :
    ∀ (steps : List (AWS × LifecycleCall)) (b : Deployer) (healthy : Bool),
      gatedFrom Entry.isCleanInvocation healthy (runLifecycle h b steps) = true →
      gatedFrom Entry.isResize healthy (runLifecycle h b steps) = true
  | [], _, _, _ => rfl
  | (aws, LifecycleCall.Deploy config) :: rest, b, healthy, hclean => by
    have ih := runLifecycle_gated h rest (Deploy h aws b config).1 false
    simp only [runLifecycle, lifecycleStep] at hclean ⊢
    rw [gatedFrom_deploy, gatedFrom_calls _ _ _ _ (fun _ _ => rfl)] at hclean
    rw [gatedFrom_deploy, gatedFrom_calls _ _ _ _ (Deploy_no_resize h aws b config)]
    exact ih hclean
  | (aws, LifecycleCall.HealthChecking config) :: rest, b, healthy, hclean => by
    have ih := runLifecycle_gated h rest b
      (healthy || decide ((HealthChecking aws b config).1 = [(GetStackName b, true)]))
    simp only [runLifecycle, lifecycleStep, List.append_assoc, List.singleton_append]
      at hclean ⊢
    rw [gatedFrom_invoked _ _ _ (fun _ hne => by cases hne),
      gatedFrom_calls _ _ _ _ (fun _ _ => rfl),
      gatedFrom_healthReturned _ _ _ _ rfl] at hclean
    rw [gatedFrom_invoked _ _ _ (fun _ hne => by cases hne),
      gatedFrom_calls _ _ _ _ (HealthChecking_no_resize aws b config),
      gatedFrom_healthReturned _ _ _ _ rfl]
    simp only [Entry.isCleanInvocation, Entry.isResize, Bool.not_false, Bool.or_true,
      Bool.true_and] at hclean ⊢
    exact ih hclean
  | (aws, LifecycleCall.FinishAdditionalWork) :: rest, b, healthy, hclean => by
    have ih := runLifecycle_gated h rest b healthy
    simp only [runLifecycle, lifecycleStep] at hclean ⊢
    rw [gatedFrom_invoked _ _ _ (fun _ hne => by cases hne),
      gatedFrom_calls _ _ _ _ (fun _ _ => rfl)] at hclean
    rw [gatedFrom_invoked _ _ _ (fun _ hne => by cases hne),
      gatedFrom_calls _ _ _ _ (FinishAdditionalWork_no_resize aws b)]
    simp only [Entry.isCleanInvocation, Entry.isResize, Bool.not_false, Bool.or_true,
      Bool.true_and] at hclean ⊢
    exact ih hclean
  | (aws, LifecycleCall.CleanPreviousVersion) :: rest, b, healthy, hclean => by
    have ih := runLifecycle_gated h rest b true
    simp only [runLifecycle, lifecycleStep] at hclean ⊢
    rw [gatedFrom_invoked _ _ _ (fun _ hne => by cases hne)] at hclean ⊢
    have hh : healthy = true := by
      cases healthy with
      | true => rfl
      | false => simp [Entry.isCleanInvocation] at hclean
    subst hh
    rw [gatedFrom_calls_healthy] at hclean ⊢
    simp only [Bool.true_or, Bool.true_and] at hclean ⊢
    exact ih hclean
  | (aws, LifecycleCall.TerminateChecking config) :: rest, b, healthy, hclean => by
    have ih := runLifecycle_gated h rest b healthy
    simp only [runLifecycle, lifecycleStep] at hclean ⊢
    rw [gatedFrom_invoked _ _ _ (fun _ hne => by cases hne),
      gatedFrom_calls _ _ _ _ (fun _ _ => rfl)] at hclean
    rw [gatedFrom_invoked _ _ _ (fun _ hne => by cases hne),
      gatedFrom_calls _ _ _ _ (TerminateChecking_no_resize aws b config)]
    simp only [Entry.isCleanInvocation, Entry.isResize, Bool.not_false, Bool.or_true,
      Bool.true_and] at hclean ⊢
    exact ih hclean

theorem untouchedFrom_invoked (considered : List String) (converged : Bool)
    (c : LifecycleCall) (hc : ∀ config, c ≠ LifecycleCall.Deploy config) (rest : List Entry) :
    untouchedFrom considered converged (Entry.invoked c :: rest) =
      untouchedFrom considered converged rest := by
  cases c with
  | Deploy config => exact absurd rfl (hc config)
  | HealthChecking config => rfl
  | FinishAdditionalWork => rfl
  | CleanPreviousVersion => rfl
  | TerminateChecking config => rfl

/-- Calls other than resizes do not affect the scan. -/
theorem untouchedFrom_calls (considered : List String) (converged : Bool)
    (rest : List Entry) :
    ∀ cs : List Call, (∀ c ∈ cs, c.isResize = false) →
      untouchedFrom considered converged (cs.map Entry.call ++ rest) =
        untouchedFrom considered converged rest
  | [], _ => rfl
  | c :: cs, hall => by
    have ih := untouchedFrom_calls considered converged rest cs
      (fun x hx => hall x (List.mem_cons_of_mem _ hx))
    have hc := hall c (List.mem_cons_self _ _)
    rw [List.map_cons, List.cons_append, ← ih]
    cases c <;> first | rfl | (simp [Call.isResize] at hc)

/-- Once every region under consideration has converged, resizes of fleets of
those regions pass the scan. -/
theorem untouchedFrom_resizes (considered : List String) (rest : List Entry) :
    ∀ cs : List Call,
      (∀ c ∈ cs, ∃ region stack asg,
        c = Call.ResizingAutoScalingGroupToZero region stack asg ∧ region ∈ considered) →
      untouchedFrom considered true (cs.map Entry.call ++ rest) =
        untouchedFrom considered true rest
  | [], _ => rfl
  | c :: cs, hall => by
    have ih := untouchedFrom_resizes considered rest cs
      (fun x hx => hall x (List.mem_cons_of_mem _ hx))
    obtain ⟨region, stack, asg, rfl, hmem⟩ := hall c (List.mem_cons_self _ _)
    rw [List.map_cons, List.cons_append]
    show ((true && decide (region ∈ considered)) &&
      untouchedFrom considered true (cs.map Entry.call ++ rest)) = _
    rw [ih]
    simp [hmem]

theorem runUntilError_subset (answer : Call → Option String) :
    ∀ l : List Call, ∀ c ∈ (runUntilError answer l).2, c ∈ l
  | [], c, hc => by simp [runUntilError] at hc
  | x :: l, c, hc => by
    unfold runUntilError at hc
    cases hx : answer x with
    | some err =>
      simp only [hx, List.mem_singleton] at hc
      rw [hc]
      exact List.mem_cons_self _ _
    | none =>
      simp only [hx, List.mem_cons] at hc
      rcases hc with hc | hc
      · rw [hc]
        exact List.mem_cons_self _ _
      · exact List.mem_cons_of_mem _ (runUntilError_subset answer l c hc)

/-- Every call of `CleanPreviousVersion` is the resize of a fleet recorded for a
configured region. -/
theorem CleanPreviousVersion_calls (aws : AWS) (b : Deployer) :
    ∀ c ∈ (CleanPreviousVersion aws b).2,
      ∃ region ∈ b.Stack.Regions, ∃ asg ∈ b.PrevAsgs region.Region,
        c = Call.ResizingAutoScalingGroupToZero region.Region b.Stack.Stack asg := by
  intro c hc
  have hrun : CleanPreviousVersion aws b =
      runUntilError (Call.resizeError aws) (allPreviousFleets b) :=
    cleanLoop_eq aws b b.Stack.Regions
  rw [hrun] at hc
  have hmem := runUntilError_subset _ _ c hc
  simp only [allPreviousFleets, List.mem_flatMap, List.mem_map] at hmem
  obtain ⟨region, hregion, asg, hasg, rfl⟩ := hmem
  exact ⟨region, hregion, asg, hasg, rfl⟩

/-- The regions polled by `HealthChecking`, each with the answer of its poll:
the regions that pass the region check, in configured order. -/
theorem healthLoop_snapshot (aws : AWS) (b : Deployer) (config : Config) :
    ∀ rs : List RegionConfig,
      healthSnapshot aws (healthLoop aws b config rs).2 =
        (rs.filter (fun region => !skippedByUser config region)).map
          (fun region => (region.Region, aws.polling region (b.AsgNames region.Region)))
  | [] => rfl
  | region :: rest => by
    have ih := healthLoop_snapshot aws b config rest
    unfold healthSnapshot at ih ⊢
    by_cases hs : skippedByUser config region = true
    · simpa [healthLoop, hs] using ih
    · simp only [Bool.not_eq_true] at hs
      simp only [healthLoop, hs, Bool.false_eq_true, if_false, List.filterMap_cons,
        Call.pollAnswer, ih, List.filter_cons, Bool.not_false, if_true, List.map_cons]

/-- When `HealthChecking` returns true, every region under consideration has
polled healthy in that call; under a region filter this needs the region names
to be pairwise distinct. -/
theorem HealthChecking_true_all (aws : AWS) (b : Deployer) (config : Config)
    (hnames : config.Region = "" ∨ (b.Stack.Regions.map (fun region => region.Region)).Nodup)
    (htrue : (HealthChecking aws b config).1 = [(GetStackName b, true)]) :
    ∀ region ∈ b.Stack.Regions, skippedByUser config region = false →
      aws.polling region (b.AsgNames region.Region) = true := by
  rw [HealthChecking_result] at htrue
  have hlen : (healthLoop aws b config b.Stack.Regions).1.length = validCount b config := by
    simpa using htrue
  rw [healthLoop_finished, List.length_map] at hlen
  by_cases hfilter : config.Region = ""
  · simp only [validCount, hfilter, beq_self_eq_true, if_true] at hlen
    rw [filter_length_eq_iff] at hlen
    intro region hmem _
    have := hlen region hmem
    simp only [Bool.and_eq_true] at this
    exact this.2
  · have hdistinct := hnames.resolve_left hfilter
    have hvalid : validCount b config = 1 := by simp [validCount, hfilter]
    rw [hvalid] at hlen
    have hpos : 0 < (b.Stack.Regions.filter (fun r =>
        !skippedByUser config r && aws.polling r (b.AsgNames r.Region))).length := by omega
    obtain ⟨selected, hsel⟩ := List.exists_mem_of_length_pos hpos
    simp only [List.mem_filter, Bool.and_eq_true, Bool.not_eq_true'] at hsel
    intro region hmem hpass
    have hname : region.Region = selected.Region := by
      rw [(skippedByUser_of_filter config region hfilter).mp hpass,
        (skippedByUser_of_filter config selected hfilter).mp hsel.2.1]
    have hsame : region = selected :=
      List.inj_on_of_nodup_map hdistinct hmem hsel.1 hname
    rw [hsame]
    exact hsel.2.2

theorem HealthChecking_true_snapshot (aws : AWS) (b : Deployer) (config : Config)
    (hnames : config.Region = "" ∨ (b.Stack.Regions.map (fun region => region.Region)).Nodup)
    (htrue : (HealthChecking aws b config).1 = [(GetStackName b, true)]) :
    healthSnapshot aws (HealthChecking aws b config).2 =
      (consideredRegions b config).map (fun name => (name, true)) := by
  rw [HealthChecking_trace, healthLoop_snapshot]
  unfold consideredRegions
  rw [List.map_map]
  apply List.map_congr_left
  intro region hmem
  simp only [List.mem_filter, Bool.not_eq_true'] at hmem
  simp [HealthChecking_true_all aws b config hnames htrue region hmem.1 hmem.2]

/-- After `Deploy`, previous fleets are recorded only for regions that were
under consideration, if that was so before. -/
theorem Deploy_recorded_considered (h : Helpers) (aws : AWS) (b : Deployer)
    (config : Config)
    (hprev : ∀ k, b.PrevAsgs k ≠ [] → k ∈ consideredRegions b config) :
    ∀ k, (Deploy h aws b config).1.PrevAsgs k ≠ [] → k ∈ consideredRegions b config := by
  intro k hk
  by_cases hmem : k ∈ consideredRegions b config
  · exact hmem
  · have hother : ∀ region ∈ b.Stack.Regions, skippedByUser config region = false →
        region.Region ≠ k := by
      intro region hregion hpass hname
      apply hmem
      unfold consideredRegions
      simp only [List.mem_map, List.mem_filter, Bool.not_eq_true']
      exact ⟨region, ⟨hregion, hpass⟩, hname⟩
    have hun := deployLoop_untouched h aws config k b.Stack.Regions b hother
    unfold Deploy at hk
    rw [hun.2] at hk
    exact hprev k hk

theorem consideredRegions_congr (b b' : Deployer) (config : Config)
    (hstack : b'.Stack = b.Stack) :
    consideredRegions b' config = consideredRegions b config := by
  unfold consideredRegions
  rw [hstack]

/-- With one `Config` throughout and previous fleets recorded only for regions
under consideration, a run in which `CleanPreviousVersion` is invoked only
after a health check returned true resizes only fleets of regions under
consideration, and only after all of them have polled healthy in one call. -/
theorem runLifecycle_untouched (h : Helpers) (config : Config) :
    ∀ (steps : List (AWS × LifecycleCall)) (b : Deployer) (healthy converged : Bool),
      (config.Region = "" ∨ (b.Stack.Regions.map (fun region => region.Region)).Nodup) →
      (∀ step ∈ steps, step.2.madeWith config = true) →
      (∀ k, b.PrevAsgs k ≠ [] → k ∈ consideredRegions b config) →
      (healthy = true → converged = true) →
      gatedFrom Entry.isCleanInvocation healthy (runLifecycle h b steps) = true →
      untouchedFrom (consideredRegions b config) converged (runLifecycle h b steps) = true
  | [], _, _, _, _, _, _, _, _ => rfl
  | (aws, LifecycleCall.Deploy c) :: rest, b, healthy, converged, hnames, hcfg, hprev, _,
      hclean => by
    have hc : c = config := by
      have := hcfg (aws, LifecycleCall.Deploy c) (List.mem_cons_self _ _)
      simpa [LifecycleCall.madeWith] using this
    subst hc
    have hstack : (Deploy h aws b c).1.Stack = b.Stack :=
      (deployLoop_frame h aws c b.Stack.Regions b).1
    have hcons := consideredRegions_congr b (Deploy h aws b c).1 c hstack
    have ih := runLifecycle_untouched h c rest (Deploy h aws b c).1 false false
      (by rw [hstack]; exact hnames)
      (fun step hstep => hcfg step (List.mem_cons_of_mem _ hstep))
      (by rw [hcons]; exact Deploy_recorded_considered h aws b c hprev)
      (fun hf => hf)
    simp only [runLifecycle, lifecycleStep] at hclean ⊢
    rw [gatedFrom_deploy, gatedFrom_calls _ _ _ _ (fun _ _ => rfl)] at hclean
    show untouchedFrom (consideredRegions b c) false _ = true
    rw [untouchedFrom_calls _ _ _ _ (Deploy_no_resize h aws b c), ← hcons]
    exact ih hclean
  | (aws, LifecycleCall.HealthChecking c) :: rest, b, healthy, converged, hnames, hcfg, hprev,
      hlink, hclean => by
    have hc : c = config := by
      have := hcfg (aws, LifecycleCall.HealthChecking c) (List.mem_cons_self _ _)
      simpa [LifecycleCall.madeWith] using this
    subst hc
    have ih := runLifecycle_untouched h c rest b
      (healthy || decide ((HealthChecking aws b c).1 = [(GetStackName b, true)]))
      (converged || (decide ((HealthChecking aws b c).1 = [(GetStackName b, true)]) &&
        decide (healthSnapshot aws (HealthChecking aws b c).2 =
          (consideredRegions b c).map (fun name => (name, true)))))
      hnames (fun step hstep => hcfg step (List.mem_cons_of_mem _ hstep)) hprev
      (by
        intro hh
        rcases Bool.or_eq_true _ _ ▸ hh with hh | hh
        · simp [hlink hh]
        · have htrue : (HealthChecking aws b c).1 = [(GetStackName b, true)] := by
            simpa using hh
          simp [htrue, HealthChecking_true_snapshot aws b c hnames htrue])
    simp only [runLifecycle, lifecycleStep, List.append_assoc, List.singleton_append]
      at hclean ⊢
    rw [gatedFrom_invoked _ _ _ (fun _ hne => by cases hne),
      gatedFrom_calls _ _ _ _ (fun _ _ => rfl),
      gatedFrom_healthReturned _ _ _ _ rfl] at hclean
    simp only [Entry.isCleanInvocation, Bool.not_false, Bool.or_true, Bool.true_and] at hclean
    rw [untouchedFrom_invoked _ _ _ (fun _ hne => by cases hne),
      untouchedFrom_calls _ _ _ _ (HealthChecking_no_resize aws b c)]
    exact ih hclean
  | (aws, LifecycleCall.FinishAdditionalWork) :: rest, b, healthy, converged, hnames, hcfg,
      hprev, hlink, hclean => by
    have ih := runLifecycle_untouched h config rest b healthy converged hnames
      (fun step hstep => hcfg step (List.mem_cons_of_mem _ hstep)) hprev hlink
    simp only [runLifecycle, lifecycleStep] at hclean ⊢
    rw [gatedFrom_invoked _ _ _ (fun _ hne => by cases hne),
      gatedFrom_calls _ _ _ _ (fun _ _ => rfl)] at hclean
    simp only [Entry.isCleanInvocation, Bool.not_false, Bool.or_true, Bool.true_and] at hclean
    rw [untouchedFrom_invoked _ _ _ (fun _ hne => by cases hne),
      untouchedFrom_calls _ _ _ _ (FinishAdditionalWork_no_resize aws b)]
    exact ih hclean
  | (aws, LifecycleCall.CleanPreviousVersion) :: rest, b, healthy, converged, hnames, hcfg,
      hprev, hlink, hclean => by
    have ih := runLifecycle_untouched h config rest b true true hnames
      (fun step hstep => hcfg step (List.mem_cons_of_mem _ hstep)) hprev (fun _ => rfl)
    simp only [runLifecycle, lifecycleStep] at hclean ⊢
    rw [gatedFrom_invoked _ _ _ (fun _ hne => by cases hne)] at hclean
    have hh : healthy = true := by
      cases healthy with
      | true => rfl
      | false => simp [Entry.isCleanInvocation] at hclean
    subst hh
    have hconv : converged = true := hlink rfl
    subst hconv
    rw [gatedFrom_calls_healthy] at hclean
    simp only [Bool.true_or, Bool.true_and] at hclean
    rw [untouchedFrom_invoked _ _ _ (fun _ hne => by cases hne), untouchedFrom_resizes]
    · exact ih hclean
    · intro c hc
      obtain ⟨region, _, asg, hasg, rfl⟩ := CleanPreviousVersion_calls aws b c hc
      exact ⟨region.Region, b.Stack.Stack, asg, rfl,
        hprev region.Region (List.ne_nil_of_mem hasg)⟩
  | (aws, LifecycleCall.TerminateChecking c) :: rest, b, healthy, converged, hnames, hcfg,
      hprev, hlink, hclean => by
    have ih := runLifecycle_untouched h config rest b healthy converged hnames
      (fun step hstep => hcfg step (List.mem_cons_of_mem _ hstep)) hprev hlink
    simp only [runLifecycle, lifecycleStep] at hclean ⊢
    rw [gatedFrom_invoked _ _ _ (fun _ hne => by cases hne),
      gatedFrom_calls _ _ _ _ (fun _ _ => rfl)] at hclean
    simp only [Entry.isCleanInvocation, Bool.not_false, Bool.or_true, Bool.true_and] at hclean
    rw [untouchedFrom_invoked _ _ _ (fun _ hne => by cases hne),
      untouchedFrom_calls _ _ _ _ (TerminateChecking_no_resize aws b c)]
    exact ih hclean

/-- Claim C5, as stated, fails, in three ways. (1) `Deploy`, a `HealthChecking`
call that returns false because region `B` is still converging, then
`CleanPreviousVersion`: the fleet `demo-v001` of region `A` is resized although
no `HealthChecking` call has returned true. (2) `Deploy` and a first
`HealthChecking` without a region filter, then a `HealthChecking` call with the
filter `A`, which returns true, then `CleanPreviousVersion`: the fleet
`demo-v007` of region `B` is resized although region `B` has never polled
healthy. (3) Two configured regions of the same name `A`, every call made with
the filter `A`: `HealthChecking` returns true with one of the two polled
unhealthy, and the fleet recorded under `A` is resized. -/
theorem CleanPreviousVersion_not_gated_counterexample :
    (decisive (runLifecycle sampleHelpers sampleDeployer
        [((sampleAWS ["A"]), LifecycleCall.Deploy (sampleConfig "")),
          ((sampleAWS ["A"]), LifecycleCall.HealthChecking (sampleConfig "")),
          ((sampleAWS ["A"]), LifecycleCall.CleanPreviousVersion)]) =
      [Entry.healthReturned false [("A", true), ("B", false)],
        Entry.call (Call.ResizingAutoScalingGroupToZero "A" "demo" "demo-v001")] ∧
      resizeGated (runLifecycle sampleHelpers sampleDeployer
        [((sampleAWS ["A"]), LifecycleCall.Deploy (sampleConfig "")),
          ((sampleAWS ["A"]), LifecycleCall.HealthChecking (sampleConfig "")),
          ((sampleAWS ["A"]), LifecycleCall.CleanPreviousVersion)]) = false) ∧
    (decisive (runLifecycle sampleHelpers sampleDeployer
        [((twoFleetsAWS ["A"]), LifecycleCall.Deploy (sampleConfig "")),
          ((twoFleetsAWS ["A"]), LifecycleCall.HealthChecking (sampleConfig "")),
          ((twoFleetsAWS ["A"]), LifecycleCall.HealthChecking (sampleConfig "A")),
          ((twoFleetsAWS ["A"]), LifecycleCall.CleanPreviousVersion)]) =
      [Entry.healthReturned false [("A", true), ("B", false)],
        Entry.healthReturned true [("A", true)],
        Entry.call (Call.ResizingAutoScalingGroupToZero "A" "demo" "demo-v001"),
        Entry.call (Call.ResizingAutoScalingGroupToZero "B" "demo" "demo-v007")] ∧
      cleanGated (runLifecycle sampleHelpers sampleDeployer
        [((twoFleetsAWS ["A"]), LifecycleCall.Deploy (sampleConfig "")),
          ((twoFleetsAWS ["A"]), LifecycleCall.HealthChecking (sampleConfig "")),
          ((twoFleetsAWS ["A"]), LifecycleCall.HealthChecking (sampleConfig "A")),
          ((twoFleetsAWS ["A"]), LifecycleCall.CleanPreviousVersion)]) = true) ∧
    (decisive (runLifecycle sampleHelpers (NewBlueGrean "bluegreen" sampleAwsConfig twinStack)
        [(twinAWS, LifecycleCall.Deploy (sampleConfig "A")),
          (twinAWS, LifecycleCall.HealthChecking (sampleConfig "A")),
          (twinAWS, LifecycleCall.CleanPreviousVersion)]) =
      [Entry.healthReturned true [("A", true), ("A", false)],
        Entry.call (Call.ResizingAutoScalingGroupToZero "A" "demo" "demo-v001"),
        Entry.call (Call.ResizingAutoScalingGroupToZero "A" "demo" "demo-v001")] ∧
      cleanGated (runLifecycle sampleHelpers
        (NewBlueGrean "bluegreen" sampleAwsConfig twinStack)
        [(twinAWS, LifecycleCall.Deploy (sampleConfig "A")),
          (twinAWS, LifecycleCall.HealthChecking (sampleConfig "A")),
          (twinAWS, LifecycleCall.CleanPreviousVersion)]) = true) := by
  decide

/-- Claim C5, amended. In every sequence of lifecycle calls in which
`CleanPreviousVersion` is invoked only after a `HealthChecking` call of the
release has returned true, no fleet is resized to zero unless an earlier
`HealthChecking` call of the release has returned true. When moreover the
sequence starts on a deployer without recorded previous fleets, every call is
made with the same `Config`, and the region names are pairwise distinct or the
filter is empty, then while one region under consideration is still converging
the previous fleets of every region remain untouched: a fleet is resized only
after a `HealthChecking` call of the release in which every region under
consideration polled healthy, and only if its region is under consideration. -/
theorem resize_only_after_healthy (h : Helpers) (b : Deployer)
    (steps : List (AWS × LifecycleCall))
    (horder : cleanGated (runLifecycle h b steps) = true) :
    resizeGated (runLifecycle h b steps) = true ∧
    ∀ config : Config,
      (∀ k, b.PrevAsgs k = []) →
      (config.Region = "" ∨ (b.Stack.Regions.map (fun region => region.Region)).Nodup) →
      (∀ step ∈ steps, step.2.madeWith config = true) →
      untouchedWhileConverging (consideredRegions b config) (runLifecycle h b steps) = true :=
  ⟨runLifecycle_gated h steps b false horder,
    fun config hfresh hnames hconfig =>
      runLifecycle_untouched h config steps b false false hnames hconfig
        (fun k hk => absurd (hfresh k) hk) (fun hf => hf) horder⟩

/-- Instance of the amended C5 with the filter `A` throughout: the first health
check returns false, the second returns true while region `B`, which is not
under consideration, polls unhealthy; only the fleet of region `A` is resized,
the fleet `demo-v007` of region `B` is untouched. -/
theorem resize_only_after_healthy_witness :
    cleanGated (runLifecycle sampleHelpers sampleDeployer
        [((twoFleetsAWS []), LifecycleCall.Deploy (sampleConfig "A")),
          ((twoFleetsAWS []), LifecycleCall.HealthChecking (sampleConfig "A")),
          ((twoFleetsAWS ["A"]), LifecycleCall.HealthChecking (sampleConfig "A")),
          ((twoFleetsAWS ["A"]), LifecycleCall.FinishAdditionalWork),
          ((twoFleetsAWS ["A"]), LifecycleCall.CleanPreviousVersion),
          ((twoFleetsAWS ["A"]), LifecycleCall.TerminateChecking (sampleConfig "A"))]) = true ∧
    resizeGated (runLifecycle sampleHelpers sampleDeployer
        [((twoFleetsAWS []), LifecycleCall.Deploy (sampleConfig "A")),
          ((twoFleetsAWS []), LifecycleCall.HealthChecking (sampleConfig "A")),
          ((twoFleetsAWS ["A"]), LifecycleCall.HealthChecking (sampleConfig "A")),
          ((twoFleetsAWS ["A"]), LifecycleCall.FinishAdditionalWork),
          ((twoFleetsAWS ["A"]), LifecycleCall.CleanPreviousVersion),
          ((twoFleetsAWS ["A"]), LifecycleCall.TerminateChecking (sampleConfig "A"))]) = true ∧
    untouchedWhileConverging (consideredRegions sampleDeployer (sampleConfig "A"))
      (runLifecycle sampleHelpers sampleDeployer
        [((twoFleetsAWS []), LifecycleCall.Deploy (sampleConfig "A")),
          ((twoFleetsAWS []), LifecycleCall.HealthChecking (sampleConfig "A")),
          ((twoFleetsAWS ["A"]), LifecycleCall.HealthChecking (sampleConfig "A")),
          ((twoFleetsAWS ["A"]), LifecycleCall.FinishAdditionalWork),
          ((twoFleetsAWS ["A"]), LifecycleCall.CleanPreviousVersion),
          ((twoFleetsAWS ["A"]), LifecycleCall.TerminateChecking (sampleConfig "A"))]) = true ∧
    decisive (runLifecycle sampleHelpers sampleDeployer
        [((twoFleetsAWS []), LifecycleCall.Deploy (sampleConfig "A")),
          ((twoFleetsAWS []), LifecycleCall.HealthChecking (sampleConfig "A")),
          ((twoFleetsAWS ["A"]), LifecycleCall.HealthChecking (sampleConfig "A")),
          ((twoFleetsAWS ["A"]), LifecycleCall.FinishAdditionalWork),
          ((twoFleetsAWS ["A"]), LifecycleCall.CleanPreviousVersion),
          ((twoFleetsAWS ["A"]), LifecycleCall.TerminateChecking (sampleConfig "A"))]) =
      [Entry.healthReturned false [("A", false)], Entry.healthReturned true [("A", true)],
        Entry.call (Call.ResizingAutoScalingGroupToZero "A" "demo" "demo-v001")] :=
  ⟨by decide,
    (resize_only_after_healthy sampleHelpers sampleDeployer _ (by decide)).1,
    (resize_only_after_healthy sampleHelpers sampleDeployer _ (by decide)).2
      (sampleConfig "A") (fun _ => rfl) (Or.inr (by decide)) (by decide),
    by decide⟩

end Goployer
